import Mathlib

set_option maxRecDepth 20000

/- Verification development for the dual-n-back stimulus engine
   (src/utils/gameLogic.ts).

   Modelling conventions:
   * JavaScript numbers are modelled as exact rationals (ℚ) or integers (Int);
     array indices and lengths as ℕ where the source keeps them non-negative.
   * Math.random() is modelled as an explicit oracle stream rand : ℕ → ℚ
     indexed by a call counter that is threaded through every function in
     the exact order in which the source calls Math.random().
   * Math.exp is modelled as an explicit function parameter fexp : ℚ → ℚ;
     it only ever feeds the bell-curve weight formula, and every theorem
     below either holds for all fexp or instantiates it explicitly.
   * Date.now() is modelled as an explicit parameter now : Int.
   * An array access that would dereference undefined (and hence throw a
     TypeError) in the JavaScript source is modelled as Option.none.
   * Division by zero follows Lean's convention x / 0 = 0; theorems whose
     source-level meaning would involve NaN add positivity hypotheses. -/

/-- JavaScript Math.round: round half toward positive infinity. -/
def jsRound (q : ℚ) : Int := ⌊q + 1/2⌋

/-- JavaScript arr.slice(k) for an integer start index k (negative counts
    from the end), as used for trailing windows via arr.slice(-n). -/
def jsSliceFrom {α : Type} (l : List α) (k : Int) : List α :=
  if k < 0 then l.drop (l.length - (-k).toNat) else l.drop k.toNat

/-- One stimulus (source interface GameSequence). -/
structure GameSequence where
  position : Int
  audio : Int
  timestamp : Int
deriving DecidableEq

/-- Source interface PerformanceSnapshot. -/
structure PerformanceSnapshot where
  accuracy : ℚ
  responseTime : ℚ
  missedResponses : ℚ
  totalResponses : ℚ
  timestamp : Int
  difficulty : ℚ
deriving DecidableEq

/-- A response-log entry; the union of the fields the two
    createPerformanceSnapshot variants read.  `correct = none` models the
    field being undefined, `responseTime = 0` models a falsy response time. -/
structure GameResponse where
  correct : Option Bool
  type : Bool
  responseTime : ℚ
  position : Option Int
  audio : Option Int
  positionCorrect : Bool
  audioCorrect : Bool
  positionExpected : Bool
  audioExpected : Bool
deriving DecidableEq

/-- Source calculateAccuracy: credits correct non-responses. -/
def calculateAccuracy (correct incorrect missed totalRounds : ℚ) : ℚ :=
  let correctNonResponses := totalRounds - correct - incorrect - missed
  let totalSuccess := correct + max 0 correctNonResponses
  let totalAttempts := totalRounds
  if totalAttempts = 0 then 0 else totalSuccess / totalAttempts * 100

/-- Source createPerformanceSnapshot (windowed variant taking currentRound).
    The console.log call of the source is side-effect free and dropped. -/
def createPerformanceSnapshot (responses : List GameResponse) (currentRound : Int)
    (timeWindow : Int) (now : Int) : PerformanceSnapshot :=
  let recentResponses := jsSliceFrom responses (-timeWindow)
  if recentResponses.length = 0 then
    ⟨0, 0, 0, 0, now, 1⟩
  else
    let recentCorrect := (recentResponses.filter (fun r => r.correct == some true)).length
    let recentIncorrect := (recentResponses.filter (fun r => r.correct == some false && r.type)).length
    let recentMissed := (recentResponses.filter (fun r => r.correct == some false && !r.type)).length
    let recentTotalRounds : ℚ := min (timeWindow : ℚ) (currentRound : ℚ)
    let accuracy := calculateAccuracy recentCorrect recentIncorrect recentMissed recentTotalRounds
    let responseTimes := (recentResponses.filter (fun r => 0 < r.responseTime)).map (·.responseTime)
    let avgResponseTime : ℚ :=
      if 0 < responseTimes.length then responseTimes.foldl (· + ·) 0 / responseTimes.length else 0
    ⟨accuracy, avgResponseTime, recentMissed, recentTotalRounds, now, 1⟩

/-- Source createPerformanceSnapshot (second module variant, window only). -/
def createPerformanceSnapshotB (responses : List GameResponse)
    (timeWindow : Int) (now : Int) : PerformanceSnapshot :=
  let recentResponses := jsSliceFrom responses (-timeWindow)
  if recentResponses.length = 0 then
    ⟨0, 0, 0, 0, now, 1⟩
  else
    let correctResponses := (recentResponses.filter (fun r =>
      (r.position.isSome && r.positionCorrect) ||
      (r.audio.isSome && r.audioCorrect) ||
      (r.position.isNone && r.audio.isNone && !r.positionExpected && !r.audioExpected))).length
    let missedResponses := (recentResponses.filter (fun r =>
      (r.positionExpected && r.position.isNone) ||
      (r.audioExpected && r.audio.isNone))).length
    let totalPossibleResponses := recentResponses.length
    let accuracy : ℚ :=
      if 0 < totalPossibleResponses then (correctResponses : ℚ) / totalPossibleResponses * 100 else 0
    let responseTimes := (recentResponses.filter (fun r => 0 < r.responseTime)).map (·.responseTime)
    let avgResponseTime : ℚ :=
      if 0 < responseTimes.length then responseTimes.foldl (· + ·) 0 / responseTimes.length else 0
    ⟨accuracy, avgResponseTime, missedResponses, totalPossibleResponses, now, 1⟩

/-- Source shouldPositionMatch.  sequence[currentIndex] on an out-of-range
    index is undefined in JavaScript and reading .position from it throws;
    that path is modelled as none. -/
def shouldPositionMatch (sequence : List GameSequence) (currentIndex nLevel : Int) : Option Bool :=
  let nBackIndex := currentIndex - nLevel
  if nBackIndex < 0 then some false
  else if currentIndex < 0 then none
  else
    match sequence.get? currentIndex.toNat, sequence.get? nBackIndex.toNat with
    | some cur, some back => some (cur.position == back.position)
    | _, _ => none

/-- Source shouldAudioMatch (same shape as shouldPositionMatch). -/
def shouldAudioMatch (sequence : List GameSequence) (currentIndex nLevel : Int) : Option Bool :=
  let nBackIndex := currentIndex - nLevel
  if nBackIndex < 0 then some false
  else if currentIndex < 0 then none
  else
    match sequence.get? currentIndex.toNat, sequence.get? nBackIndex.toNat with
    | some cur, some back => some (cur.audio == back.audio)
    | _, _ => none

inductive Urgency
  | low
  | medium
  | high
deriving DecidableEq

inductive RecommendedAction
  | increase
  | decrease
  | maintain
deriving DecidableEq

/-- The result record of analyzeAdaptiveTriggers (the reason string of the
    source is descriptive only and not modelled). -/
structure TriggerResult where
  shouldAdjust : Bool
  urgency : Urgency
  recommendedAction : RecommendedAction
deriving DecidableEq

/-- avg accuracy of a window, as computed by analyzeAdaptiveTriggers. -/
def avgAccuracyOf (recent : List PerformanceSnapshot) : ℚ :=
  (recent.foldl (fun s p => s + p.accuracy) 0) / recent.length

/-- missedResponses / totalResponses of one snapshot. -/
def missedRateOf (p : PerformanceSnapshot) : ℚ := p.missedResponses / p.totalResponses

/-- avg missed rate of a window, as computed by analyzeAdaptiveTriggers. -/
def avgMissedRateOf (recent : List PerformanceSnapshot) : ℚ :=
  (recent.foldl (fun s p => s + missedRateOf p) 0) / recent.length

/-- excellent-performance accuracy threshold. -/
def excellentThresholdOf (nLevel : ℚ) : ℚ := max 85 (95 - nLevel * 2)

/-- poor-performance accuracy threshold. -/
def poorThresholdOf (nLevel : ℚ) : ℚ := max 50 (65 - nLevel * 3)

/-- Source analyzeAdaptiveTriggers. -/
def analyzeAdaptiveTriggers (performanceHistory : List PerformanceSnapshot)
    (nLevel : ℚ) : TriggerResult :=
  if performanceHistory.length < 3 then
    ⟨false, .low, .maintain⟩
  else
    let recent := jsSliceFrom performanceHistory (-3)
    let avgAccuracy := avgAccuracyOf recent
    let avgMissedRate := avgMissedRateOf recent
    let excellentThreshold := excellentThresholdOf nLevel
    let poorThreshold := poorThresholdOf nLevel
    if excellentThreshold ≤ avgAccuracy ∧ avgMissedRate < 0.1 then
      ⟨true,
       if recent.all (fun p => decide (excellentThreshold ≤ p.accuracy)) then .high else .medium,
       .increase⟩
    else if avgAccuracy ≤ poorThreshold ∨ 0.4 < avgMissedRate then
      ⟨true, if avgAccuracy ≤ poorThreshold - 10 then .high else .medium, .decrease⟩
    else if 3 ≤ recent.length then
      let trend := (recent.getD (recent.length - 1) ⟨0, 0, 0, 0, 0, 0⟩).accuracy -
        (recent.getD 0 ⟨0, 0, 0, 0, 0, 0⟩).accuracy
      if trend < -15 then ⟨true, .medium, .decrease⟩ else ⟨false, .low, .maintain⟩
    else
      ⟨false, .low, .maintain⟩

/-- Source calculateBellCurveWeight; Math.exp is the parameter fexp. -/
def calculateBellCurveWeight (fexp : ℚ → ℚ) (position length : ℕ) : ℚ :=
  if length ≤ 1 then 1
  else
    let normalized : ℚ := (position : ℚ) / ((length : ℚ) - 1)
    let center : ℚ := 0.5
    let spread : ℚ := 0.3
    let exponent := -(normalized - center) ^ 2 / (2 * spread ^ 2)
    0.2 + 0.8 * fexp exponent

/-- Number of consecutive true slots immediately before a position
    (the backward scan of the source isValidPosition). -/
def consecutiveBefore (pattern : List Bool) (position : ℕ) : ℕ :=
  ((pattern.take position).reverse.takeWhile id).length

/-- Source isValidPosition. -/
def isValidPosition (pattern : List Bool) (position : ℕ) (lastPlaced : Int)
    (minGap maxConsecutive : ℕ) (existingPattern : Option (List Bool))
    (avoidOverlap : Bool) : Bool :=
  if (position : Int) - lastPlaced ≤ (minGap : Int) then false
  else if avoidOverlap && (existingPattern.getD []).getD position false then false
  else decide (consecutiveBefore pattern position < maxConsecutive)

/-- One Fisher-Yates swap; out-of-range indices (which in JavaScript would
    write undefined into the array and make the later slot dereference
    throw) are modelled as failure. -/
def swapSlots (l : List ℕ) (i j : ℕ) : Option (List ℕ) :=
  match l.get? i, l.get? j with
  | some a, some b => some ((l.set i b).set j a)
  | _, _ => none

/-- The Fisher-Yates shuffle loop of the source (both the inline loop of
    placeMatches and the shuffleArray utility), running the index i down to
    1; the first argument is the current index.  In the source the slot pool
    of placeMatches stores (index, weight) records whose weight is the pure
    function of the index recomputed by weightOfSlot below, so the pool is
    modelled by its indices alone. -/
def fisherYatesLoop (rand : ℕ → ℚ) : ℕ → List ℕ → ℕ → Option (List ℕ × ℕ)
  | 0, l, c => some (l, c)
  | i + 1, l, c =>
    let j : Int := ⌊rand c * ((i : ℚ) + 2)⌋
    if j < 0 then none
    else
      match swapSlots l (i + 1) j.toNat with
      | some l' => fisherYatesLoop rand i l' (c + 1)
      | none => none

/-- Source shuffleArray (Fisher-Yates on a copy), for lists of indices. -/
def shuffleArray (rand : ℕ → ℚ) (array : List ℕ) (c : ℕ) : Option (List ℕ × ℕ) :=
  fisherYatesLoop rand (array.length - 1) array c

/-- The stored weight of a slot in placeMatches' weighted slot pool. -/
def weightOfSlot (fexp : ℚ → ℚ) (useBellCurve : Bool) (length slot : ℕ) : ℚ :=
  if useBellCurve then calculateBellCurveWeight fexp slot length else 1

/-- The first weighted-probability placement pass of placeMatches.
    State: (pattern, placed, lastPlaced, random counter). -/
def passLoop (fexp : ℚ → ℚ) (rand : ℕ → ℚ) (length : ℕ) (targetMatches : Int)
    (maxConsecutive minGap : ℕ) (useBellCurve avoidOverlap : Bool)
    (existingPattern : Option (List Bool)) :
    List ℕ → List Bool × Int × Int × ℕ → List Bool × Int × Int × ℕ
  | [], st => st
  | slot :: rest, (pattern, placed, lastPlaced, c) =>
    if targetMatches ≤ placed then (pattern, placed, lastPlaced, c)
    else if !isValidPosition pattern slot lastPlaced minGap maxConsecutive
        existingPattern avoidOverlap then
      passLoop fexp rand length targetMatches maxConsecutive minGap useBellCurve
        avoidOverlap existingPattern rest (pattern, placed, lastPlaced, c)
    else
      let placementProbability : ℚ :=
        if useBellCurve then
          weightOfSlot fexp useBellCurve length slot * (1.2 - (placed : ℚ) / (targetMatches : ℚ))
        else 1
      if rand c < placementProbability then
        passLoop fexp rand length targetMatches maxConsecutive minGap useBellCurve
          avoidOverlap existingPattern rest
          (pattern.set slot true, placed + 1, (slot : Int), c + 1)
      else
        passLoop fexp rand length targetMatches maxConsecutive minGap useBellCurve
          avoidOverlap existingPattern rest (pattern, placed, lastPlaced, c + 1)

/-- The deterministic fill loop of placeMatches ("fill remaining matches
    with best available positions").  Each iteration of the source's while
    loop places exactly one match, so (targetMatches - placed).toNat
    iterations of this fuelled recursion reproduce the while loop exactly;
    the loop consumes no randomness. -/
def fillLoop (fexp : ℚ → ℚ) (length : ℕ) (targetMatches : Int)
    (maxConsecutive minGap : ℕ) (useBellCurve avoidOverlap : Bool)
    (existingPattern : Option (List Bool)) (slots : List ℕ) :
    ℕ → List Bool × Int × Int → List Bool × Int × Int
  | 0, st => st
  | fuel + 1, (pattern, placed, lastPlaced) =>
    if placed < targetMatches then
      let remainingSlots := slots.filter (fun s =>
        !pattern.getD s false &&
        isValidPosition pattern s lastPlaced minGap maxConsecutive existingPattern avoidOverlap)
      match remainingSlots with
      | [] => (pattern, placed, lastPlaced)
      | s0 :: ss =>
        let bestSlot := ss.foldl (fun best current =>
          if weightOfSlot fexp useBellCurve length best < weightOfSlot fexp useBellCurve length current
          then current else best) s0
        fillLoop fexp length targetMatches maxConsecutive minGap useBellCurve
          avoidOverlap existingPattern slots fuel
          (pattern.set bestSlot true, placed + 1, (bestSlot : Int))
    else (pattern, placed, lastPlaced)

/-- Source placeMatches. -/
def placeMatches (fexp : ℚ → ℚ) (rand : ℕ → ℚ) (length : ℕ) (targetMatches : Int)
    (maxConsecutive minGap : ℕ) (useBellCurve avoidOverlap : Bool)
    (existingPattern : Option (List Bool)) (c : ℕ) : Option (List Bool × ℕ) :=
  match fisherYatesLoop rand (length - 1) (List.range length) c with
  | none => none
  | some (shuffledSlots, c1) =>
    let st := passLoop fexp rand length targetMatches maxConsecutive minGap
      useBellCurve avoidOverlap existingPattern shuffledSlots
      (List.replicate length false, 0, -(minGap : Int) - 1, c1)
    let fin := fillLoop fexp length targetMatches maxConsecutive minGap
      useBellCurve avoidOverlap existingPattern shuffledSlots
      (targetMatches - st.2.1).toNat (st.1, st.2.1, st.2.2.1)
    some (fin.1, st.2.2.2)

/-- Source createEngagementPattern: position channel first (bell curve, no
    overlap constraint), then audio with overlap avoidance iff nLevel < 3. -/
def createEngagementPattern (fexp : ℚ → ℚ) (rand : ℕ → ℚ) (length : ℕ)
    (positionMatches audioMatches : Int) (maxConsecutive minGap : ℕ)
    (nLevel : ℕ) (c : ℕ) : Option ((List Bool × List Bool) × ℕ) :=
  match placeMatches fexp rand length positionMatches maxConsecutive minGap
      true false none c with
  | none => none
  | some (position, c1) =>
    let shouldAvoidOverlap := decide (nLevel < 3)
    match placeMatches fexp rand length audioMatches maxConsecutive minGap
        true shouldAvoidOverlap (some position) c1 with
    | none => none
    | some (audio, c2) => some ((position, audio), c2)

/-- Source getOverlapThreshold (consumes one random draw). -/
def getOverlapThreshold (rand : ℕ → ℚ) (nLevel : ℕ) (c : ℕ) : ℚ × ℕ :=
  let baseThreshold := min (0.2 + ((nLevel : ℚ) - 1) * 0.1) 0.6
  let randomFactor := 0.9 + rand c * 0.2
  (min (baseThreshold * randomFactor) 0.7, c + 1)

/-- Number of slots where both channels match. -/
def countOverlap (position audio : List Bool) : ℕ :=
  ((List.range position.length).filter
    (fun i => position.getD i false && audio.getD i false)).length

/-- The nearby-relocation of addPatternBreaking's stride-3 breaker: try
    j in [i-1, i+1, i-2, i+2], place at the first free slot that does not
    create an unwanted overlap, as in the source's inner for-of loop. -/
def relocateMatch (p a : List Bool) (currentOverlap targetOverlap : Int)
    (i len : ℕ) : List Bool :=
  let candidates : List Int := [(i : Int) - 1, (i : Int) + 1, (i : Int) - 2, (i : Int) + 2]
  match candidates.find? (fun j =>
      decide (0 ≤ j) && decide (j < (len : Int)) && !p.getD j.toNat false &&
      (!a.getD j.toNat false || decide (currentOverlap < targetOverlap))) with
  | some j => p.set j.toNat true
  | none => p

/-- The pattern-breaking scan of addPatternBreaking over i = 2 .. length-3.
    The first argument counts the remaining iterations, the second is the
    current i. -/
def patternBreakLoop (rand : ℕ → ℚ) (nLevel len : ℕ)
    (currentOverlap targetOverlap : Int) :
    ℕ → ℕ → List Bool × List Bool → ℕ → (List Bool × List Bool) × ℕ
  | 0, _, pa, c => (pa, c)
  | rem + 1, i, (p, a), c =>
    -- alternating pattern on the position channel
    let step1 : List Bool × ℕ :=
      if p.getD (i - 2) false && !p.getD (i - 1) false && p.getD i false &&
          !p.getD (i + 1) false && p.getD (i + 2) false then
        if !a.getD i false || decide (nLevel < 3) then (p.set i false, c)
        else if rand c < 0.6 then (p.set i false, c + 1)
        else (p, c + 1)
      else (p, c)
    let p1 := step1.1
    let c1 := step1.2
    -- alternating pattern on the audio channel
    let step2 : List Bool × ℕ :=
      if a.getD (i - 2) false && !a.getD (i - 1) false && a.getD i false &&
          !a.getD (i + 1) false && a.getD (i + 2) false then
        if !p1.getD i false || decide (nLevel < 3) then (a.set i false, c1)
        else if rand c1 < 0.6 then (a.set i false, c1 + 1)
        else (a, c1 + 1)
      else (a, c1)
    let a2 := step2.1
    let c2 := step2.2
    -- too-regular spacing (every 3rd position) on the position channel
    let step3 : List Bool × ℕ :=
      if decide (i % 3 = 0) && p1.getD i false && p1.getD (i - 3) false &&
          (decide (i + 3 < len) && p1.getD (i + 3) false) then
        if !a2.getD i false || decide (nLevel < 4) then
          if rand c2 < 0.5 then
            (relocateMatch (p1.set i false) a2 currentOverlap targetOverlap i len, c2 + 1)
          else (p1, c2 + 1)
        else (p1, c2)
      else (p1, c2)
    patternBreakLoop rand nLevel len currentOverlap targetOverlap rem (i + 1)
      (step3.1, a2) step3.2

/-- The deficit backfill loop of addPatternBreaking.  State carries the
    source's loop counter i and the remaining available slots; the source
    condition is i < min(deficit, availableSlots.length) with one slot
    spliced away per iteration.  An out-of-range random index (impossible
    for draws in [0,1)) is modelled as failure. -/
def backfillLoop (rand : ℕ → ℚ) (preferOverlap : Bool) (other : List Bool)
    (deficit : Int) :
    ℕ → ℕ → List ℕ → List Bool → ℕ → Option (List Bool × ℕ)
  | 0, _, _, target, c => some (target, c)
  | fuel + 1, i, availableSlots, target, c =>
    if (i : Int) < min deficit (availableSlots.length : Int) then
      match availableSlots with
      | [] => some (target, c)
      | s0 :: _ =>
        let bestSlot :=
          if preferOverlap then
            match availableSlots.find? (fun s => other.getD s false) with
            | some s => s
            | none => s0
          else s0
        if rand c < 0.7 then
          backfillLoop rand preferOverlap other deficit fuel (i + 1)
            (availableSlots.erase bestSlot) (target.set bestSlot true) (c + 1)
        else
          let idx : Int := ⌊rand (c + 1) * (availableSlots.length : ℚ)⌋
          if 0 ≤ idx ∧ idx.toNat < availableSlots.length then
            let randomSlot := availableSlots.getD idx.toNat 0
            backfillLoop rand preferOverlap other deficit fuel (i + 1)
              (availableSlots.erase randomSlot) (target.set randomSlot true) (c + 2)
          else none
    else some (target, c)

/-- Source addPatternBreaking. -/
def addPatternBreaking (rand : ℕ → ℚ) (position audio : List Bool)
    (targetPosition targetAudio : Int) (nLevel : ℕ) (c : ℕ) :
    Option ((List Bool × List Bool) × ℕ) :=
  let len := position.length
  let currentOverlap : Int := countOverlap position audio
  let thr := getOverlapThreshold rand nLevel c
  let targetOverlap : Int := jsRound ((min targetPosition targetAudio : Int) * thr.1)
  let broken := patternBreakLoop rand nLevel len currentOverlap targetOverlap
    (len - 4) 2 (position, audio) thr.2
  let p1 := broken.1.1
  let a1 := broken.1.2
  let c1 := broken.2
  let actualPositionMatches : Int := p1.count true
  let actualAudioMatches : Int := a1.count true
  let actualOverlap : Int := countOverlap p1 a1
  let preferOverlap := decide (3 ≤ nLevel) && decide (actualOverlap < targetOverlap)
  match (if actualPositionMatches < targetPosition then
      let availableSlots := (List.range len).filter (fun idx => !p1.getD idx false)
      backfillLoop rand preferOverlap a1 (targetPosition - actualPositionMatches)
        availableSlots.length 0 availableSlots p1 c1
    else some (p1, c1)) with
  | none => none
  | some (p2, c2) =>
    match (if actualAudioMatches < targetAudio then
        let availableSlots := (List.range a1.length).filter (fun idx => !a1.getD idx false)
        backfillLoop rand preferOverlap p2 (targetAudio - actualAudioMatches)
          availableSlots.length 0 availableSlots a1 c2
      else some (a1, c2)) with
    | none => none
    | some (a3, c3) => some ((p2, a3), c3)

inductive Difficulty
  | easy
  | medium
  | hard
deriving DecidableEq

/-- One difficulty preset of generateEngagingSequence. -/
structure DifficultySettings where
  position : ℚ
  audio : ℚ
  maxConsecutive : ℕ
  minGap : ℕ
  overlapBonus : ℚ
deriving DecidableEq

/-- The difficultySettings table of generateEngagingSequence. -/
def difficultySettings : Difficulty → DifficultySettings
  | .easy => ⟨0.35, 0.35, 1, 2, 0.05⟩
  | .medium => ⟨0.30, 0.30, 2, 1, 0.10⟩
  | .hard => ⟨0.25, 0.25, 3, 1, 0.15⟩

/-- The do-while resampling loop of the materializer: draw floor(r*bound)
    until the predicate bad rejects no more; fuelled, so a run that the
    source would spin on forever is modelled as failure. -/
def resampleValue (rand : ℕ → ℚ) (bound : Int) (bad : Int → Bool) :
    ℕ → ℕ → Option (Int × ℕ)
  | 0, _ => none
  | fuel + 1, c =>
    let v : Int := ⌊rand c * (bound : ℚ)⌋
    if bad v then resampleValue rand bound bad fuel (c + 1) else some (v, c + 1)

/-- The initial loop of generateEngagingSequence: count uniformly random
    stimuli (two draws each), starting at sequence index i. -/
def initialStimuli (rand : ℕ → ℚ) (maxPosition maxAudio : Int) (now : Int) :
    ℕ → ℕ → ℕ → List GameSequence × ℕ
  | 0, c, _ => ([], c)
  | count + 1, c, i =>
    let st : GameSequence :=
      ⟨⌊rand c * ((maxPosition : ℚ) + 1)⌋, ⌊rand (c + 1) * ((maxAudio : ℚ) + 1)⌋,
       now + (i : Int) * 3000⟩
    let rest := initialStimuli rand maxPosition maxAudio now count (c + 2) (i + 1)
    (st :: rest.1, rest.2)

/-- One channel of a materialization step: a planned match copies the
    n-back value, otherwise the value is resampled until it differs from
    the n-back value and is not already repeated in the window (the
    do-while loop of the source, identical for both channels). -/
def materializeValue (rand : ℕ → ℚ) (planned : Bool) (nback : Int)
    (used : List Int) (bound : Int) (fuel c : ℕ) : Option (Int × ℕ) :=
  if planned then some (nback, c)
  else resampleValue rand bound (fun v => v == nback || decide (1 < used.count v)) fuel c

/-- One iteration of the materialization loop of generateEngagingSequence,
    producing the stimulus at index i = seq.length.  The n-back dereference
    sequence[i - nLevel] is demanded by both branches in the source, and is
    out of range only for nLevel = 0 (where the source would throw);
    modelled as failure. -/
def materializeStep (rand : ℕ → ℚ) (posPlan audioPlan : List Bool)
    (nLevel : ℕ) (maxPosition maxAudio : Int) (now : Int) (fuel : ℕ)
    (seq : List GameSequence) (c : ℕ) : Option (GameSequence × ℕ) :=
  let i := seq.length
  let patternIndex := i - nLevel
  let sPM := posPlan.getD patternIndex false
  let sAM := audioPlan.getD patternIndex false
  match seq.get? (i - nLevel) with
  | none => none
  | some nback =>
    match materializeValue rand sPM nback.position
        ((seq.drop (i - nLevel * 2)).map (·.position)) (maxPosition + 1) fuel c with
    | none => none
    | some (position, c1) =>
      match materializeValue rand sAM nback.audio
          ((seq.drop (i - nLevel * 2)).map (·.audio)) (maxAudio + 1) fuel c1 with
      | none => none
      | some (audio, c2) => some (⟨position, audio, now + (i : Int) * 3000⟩, c2)

/-- The materialization loop of generateEngagingSequence for the remaining
    indices; the current index is always seq.length. -/
def materializeLoop (rand : ℕ → ℚ) (posPlan audioPlan : List Bool)
    (nLevel : ℕ) (maxPosition maxAudio : Int) (now : Int) (fuel : ℕ) :
    ℕ → List GameSequence → ℕ → Option (List GameSequence × ℕ)
  | 0, seq, c => some (seq, c)
  | rem + 1, seq, c =>
    match materializeStep rand posPlan audioPlan nLevel maxPosition maxAudio
        now fuel seq c with
    | none => none
    | some (st, c') =>
      materializeLoop rand posPlan audioPlan nLevel maxPosition maxAudio now
        fuel rem (seq ++ [st]) c'

/-- Source generateEngagingSequence, exposing alongside the materialized
    sequence the final match plan the run produced (the source's
    finalPattern); the trivial early-return case length ≤ nLevel, which
    produces no plan, is not covered here (see generateEngagingSequence). -/
def generateEngagingSequenceFull (fexp : ℚ → ℚ) (rand : ℕ → ℚ) (now : Int)
    (fuel : ℕ) (length gridSize nLevel : ℕ) (difficulty : Difficulty)
    (c : ℕ) : Option ((List Bool × List Bool) × List GameSequence × ℕ) :=
  let maxPosition : Int := (gridSize : Int) * (gridSize : Int) - 1
  let maxAudio : Int := 7
  let settings := difficultySettings difficulty
  let eligibleStimuli := length - nLevel
  let ini := initialStimuli rand maxPosition maxAudio now (min nLevel length) c 0
  if length ≤ nLevel then none
  else
    let targetPositionMatches := jsRound ((eligibleStimuli : ℚ) * settings.position)
    let targetAudioMatches := jsRound ((eligibleStimuli : ℚ) * settings.audio)
    match createEngagementPattern fexp rand eligibleStimuli targetPositionMatches
        targetAudioMatches settings.maxConsecutive settings.minGap nLevel ini.2 with
    | none => none
    | some (matchPattern, c1) =>
      match addPatternBreaking rand matchPattern.1 matchPattern.2
          targetPositionMatches targetAudioMatches nLevel c1 with
      | none => none
      | some (finalPattern, c2) =>
        match materializeLoop rand finalPattern.1 finalPattern.2 nLevel
            maxPosition maxAudio now fuel (length - nLevel) ini.1 c2 with
        | none => none
        | some (seq, c3) => some (finalPattern, seq, c3)

/-- Source generateEngagingSequence (sequence only). -/
def generateEngagingSequence (fexp : ℚ → ℚ) (rand : ℕ → ℚ) (now : Int)
    (fuel : ℕ) (length gridSize nLevel : ℕ) (difficulty : Difficulty)
    (c : ℕ) : Option (List GameSequence × ℕ) :=
  let maxPosition : Int := (gridSize : Int) * (gridSize : Int) - 1
  let maxAudio : Int := 7
  let ini := initialStimuli rand maxPosition maxAudio now (min nLevel length) c 0
  if length ≤ nLevel then some ini
  else
    match generateEngagingSequenceFull fexp rand now fuel length gridSize nLevel
        difficulty c with
    | none => none
    | some (_, seq, c') => some (seq, c')

/-- Source interface AdaptiveConfig. -/
structure AdaptiveConfig where
  nLevel : ℕ
  gridSize : ℕ
  difficulty : Difficulty
  segmentSize : ℕ
  targetPositionMatchRate : ℚ
  targetAudioMatchRate : ℚ
  maxConsecutive : ℕ
  minGap : ℕ
  overlapBonus : ℚ
deriving DecidableEq

/-- Source interface GeneratorState; the two Set<number> fields of
    nextSegmentMatches are modelled as lists of the added indices
    (membership is all the source ever queries). -/
structure GeneratorState where
  generatedCount : ℕ
  recentPositions : List Int
  recentAudios : List Int
  currentConfig : AdaptiveConfig
  nextSegmentPositionMatches : List ℕ
  nextSegmentAudioMatches : List ℕ
deriving DecidableEq

/-- The streaming generator class AdaptiveSequenceGenerator (its fields). -/
structure AdaptiveSequenceGenerator where
  state : GeneratorState
  maxPosition : Int
  maxAudio : Int
  baseSequence : List GameSequence
deriving DecidableEq

/-- The common push pattern of the class: append a stimulus to
    baseSequence and the recent-value buffers and bump generatedCount. -/
def AdaptiveSequenceGenerator.pushStimulus (g : AdaptiveSequenceGenerator)
    (st : GameSequence) : AdaptiveSequenceGenerator :=
  { g with
    baseSequence := g.baseSequence ++ [st],
    state := { g.state with
      recentPositions := g.state.recentPositions ++ [st.position],
      recentAudios := g.state.recentAudios ++ [st.audio],
      generatedCount := g.state.generatedCount + 1 } }

/-- The loop body of generateInitialStimuli (count iterations left, i is
    the source loop index). -/
def AdaptiveSequenceGenerator.initLoop (rand : ℕ → ℚ) (now : Int) :
    ℕ → ℕ → AdaptiveSequenceGenerator → ℕ → AdaptiveSequenceGenerator × ℕ
  | 0, _, g, c => (g, c)
  | count + 1, i, g, c =>
    let st : GameSequence :=
      ⟨⌊rand c * ((g.maxPosition : ℚ) + 1)⌋, ⌊rand (c + 1) * ((g.maxAudio : ℚ) + 1)⌋,
       now + (i : Int) * 3000⟩
    AdaptiveSequenceGenerator.initLoop rand now count (i + 1) (g.pushStimulus st) (c + 2)

/-- Source AdaptiveSequenceGenerator.generateInitialStimuli. -/
def AdaptiveSequenceGenerator.generateInitialStimuli (g : AdaptiveSequenceGenerator)
    (rand : ℕ → ℚ) (now : Int) (c : ℕ) : AdaptiveSequenceGenerator × ℕ :=
  AdaptiveSequenceGenerator.initLoop rand now g.state.currentConfig.nLevel 0 g c

/-- Source AdaptiveSequenceGenerator.selectMatchIndices. -/
def AdaptiveSequenceGenerator.selectMatchIndices (rand : ℕ → ℚ) (segmentSize : ℕ)
    (targetMatches : Int) (c : ℕ) : Option (List ℕ × ℕ) :=
  match shuffleArray rand (List.range segmentSize) c with
  | none => none
  | some (shuffled, c') => some (shuffled.take targetMatches.toNat, c')

/-- Source AdaptiveSequenceGenerator.planNextSegment. -/
def AdaptiveSequenceGenerator.planNextSegment (g : AdaptiveSequenceGenerator)
    (rand : ℕ → ℚ) (c : ℕ) : Option (AdaptiveSequenceGenerator × ℕ) :=
  let segmentSize := g.state.currentConfig.segmentSize
  let startIndex := g.state.generatedCount
  let targetPositionMatches :=
    jsRound ((segmentSize : ℚ) * g.state.currentConfig.targetPositionMatchRate)
  let targetAudioMatches :=
    jsRound ((segmentSize : ℚ) * g.state.currentConfig.targetAudioMatchRate)
  match (if 0 < targetPositionMatches then
      AdaptiveSequenceGenerator.selectMatchIndices rand segmentSize targetPositionMatches c
    else some ([], c)) with
  | none => none
  | some (positionIndices, c1) =>
    match (if 0 < targetAudioMatches then
        AdaptiveSequenceGenerator.selectMatchIndices rand segmentSize targetAudioMatches c1
      else some ([], c1)) with
    | none => none
    | some (audioIndices, c2) =>
      some ({ g with state := { g.state with
        nextSegmentPositionMatches := positionIndices.map (fun idx => startIndex + idx),
        nextSegmentAudioMatches := audioIndices.map (fun idx => startIndex + idx) } }, c2)

/-- The class constructor. -/
def AdaptiveSequenceGenerator.create (config : AdaptiveConfig) (rand : ℕ → ℚ)
    (now : Int) (c : ℕ) : Option (AdaptiveSequenceGenerator × ℕ) :=
  let g0 : AdaptiveSequenceGenerator :=
    { state := { generatedCount := 0, recentPositions := [], recentAudios := [],
                 currentConfig := config, nextSegmentPositionMatches := [],
                 nextSegmentAudioMatches := [] },
      maxPosition := (config.gridSize : Int) * (config.gridSize : Int) - 1,
      maxAudio := 7,
      baseSequence := [] }
  let g1 := g0.generateInitialStimuli rand now c
  (g1.1).planNextSegment rand g1.2

/-- An explicit random-draw tape (all draws in [0,1)) for one concrete run
    of generateEngagingSequence with length 11, gridSize 3, nLevel 2 and
    the easy preset: draws 0-3 seed the two initial stimuli, 4-11 shuffle
    the position slots to visiting order [0,3,6,...], 12-14 accept slots
    0, 3 and 6, 15-22 shuffle the audio slots to visiting order [1,4,7,...],
    23-25 accept slots 1, 4 and 7, 26 is the overlap-threshold jitter,
    27 is the stride-break coin for i = 3, and the rest materialize the
    non-matching stimulus values. -/
def cexRandList : List ℚ :=
  [0, 0, 1/9, 1/8,
   8/9, 7/8, 5/7, 4/6, 2/5, 1/4, 2/3, 1/2,
   0, 0, 0,
   8/9, 3/4, 5/7, 1/2, 2/5, 0, 0, 0,
   0, 0, 0,
   0,
   0,
   1/4, 2/9, 3/8, 1/3, 1/2, 4/9, 5/9, 5/8, 3/4, 2/3, 7/9, 7/8]

/-- The concrete-run tape as an oracle stream (0 beyond the tape). -/
def cexRand (n : ℕ) : ℚ := cexRandList.getD n 0

/-- The concrete run: generateEngagingSequenceFull with the tape above,
    fexp constantly 1, now = 0, resampling fuel 4. -/
def cexRun : Option ((List Bool × List Bool) × List GameSequence × ℕ) :=
  generateEngagingSequenceFull (fun _ => 1) cexRand 0 4 11 3 2 Difficulty.easy 0

/-- The position pattern the run's placement pass produces ({0,3,6}). -/
def cexPosPlan0 : List Bool :=
  [true, false, false, true, false, false, true, false, false]

/-- The audio pattern the run's placement pass produces ({1,4,7}). -/
def cexAudPlan : List Bool :=
  [false, true, false, false, true, false, false, true, false]

/-- The final position plan after addPatternBreaking: the stride-3 breaker
    moved the match from slot 3 to slot 2, so matches sit at slots 0 and 2,
    at distance 2 = minGap of the easy preset. -/
def cexPosPlan : List Bool :=
  [true, false, true, false, false, false, true, false, false]

/-- The materialized sequence of the run. -/
def cexSeq : List GameSequence :=
  [⟨0, 0, 0⟩, ⟨1, 1, 3000⟩, ⟨0, 2, 6000⟩, ⟨2, 1, 9000⟩, ⟨0, 3, 12000⟩,
   ⟨3, 4, 15000⟩, ⟨4, 3, 18000⟩, ⟨5, 5, 21000⟩, ⟨4, 6, 24000⟩, ⟨6, 5, 27000⟩,
   ⟨7, 7, 30000⟩]

/-- The full value of cexRun. -/
def cexOut : (List Bool × List Bool) × List GameSequence × ℕ :=
  ((cexPosPlan, cexAudPlan), (cexSeq, 40))

/-- Three excellent snapshots (accuracy 95/96/97, missed rate 0.05). -/
def excellentHistory : List PerformanceSnapshot :=
  [⟨95, 500, 1, 20, 0, 1⟩, ⟨96, 500, 1, 20, 0, 1⟩, ⟨97, 500, 1, 20, 0, 1⟩]

/-- Three poor snapshots (accuracy 40/38/35). -/
def poorHistory : List PerformanceSnapshot :=
  [⟨40, 500, 0, 10, 0, 1⟩, ⟨38, 500, 0, 10, 0, 1⟩, ⟨35, 500, 0, 10, 0, 1⟩]

/-- Snapshots whose average accuracy (275/3) clears the nLevel-2 excellent
    threshold 91 but whose first snapshot (90) individually misses it. -/
def mixedHistory : List PerformanceSnapshot :=
  [⟨90, 500, 1, 20, 0, 1⟩, ⟨92, 500, 1, 20, 0, 1⟩, ⟨93, 500, 1, 20, 0, 1⟩]

/-- Snapshots whose average accuracy 52 is under the nLevel-3 poor
    threshold 56 but above threshold minus 10. -/
def mediocreHistory : List PerformanceSnapshot :=
  [⟨50, 500, 0, 10, 0, 1⟩, ⟨52, 500, 0, 10, 0, 1⟩, ⟨54, 500, 0, 10, 0, 1⟩]

/-- The class invariant relating the cursor to the stored stimuli. -/
def AdaptiveSequenceGenerator.cursorInv (g : AdaptiveSequenceGenerator) : Prop :=
  g.state.generatedCount = g.baseSequence.length

/-- Source AdaptiveSequenceGenerator.getNextStimulus.  The do-while loops
    draw until the value differs from the n-back value (one unconditional
    draw when currentIndex < nLevel); the n-back dereference is modelled as
    failure when out of range (nLevel = 0, where the source would throw). -/
def AdaptiveSequenceGenerator.getNextStimulus (g : AdaptiveSequenceGenerator)
    (rand : ℕ → ℚ) (now : Int) (fuel : ℕ) (c : ℕ) :
    Option (GameSequence × AdaptiveSequenceGenerator × ℕ) :=
  let currentIndex := g.state.generatedCount
  let nLevel := g.state.currentConfig.nLevel
  if currentIndex < g.baseSequence.length then
    (g.baseSequence.get? currentIndex).map (fun st => (st, g, c))
  else
    let sPM := g.state.nextSegmentPositionMatches.contains currentIndex
    let sAM := g.state.nextSegmentAudioMatches.contains currentIndex
    match (if sPM && decide (nLevel ≤ currentIndex) then
        (g.baseSequence.get? (currentIndex - nLevel)).map (fun s => (s.position, c))
      else if nLevel ≤ currentIndex then
        match g.baseSequence.get? (currentIndex - nLevel) with
        | none => none
        | some nb => resampleValue rand (g.maxPosition + 1) (fun v => v == nb.position) fuel c
      else
        resampleValue rand (g.maxPosition + 1) (fun _ => false) fuel c) with
    | none => none
    | some (position, c1) =>
      match (if sAM && decide (nLevel ≤ currentIndex) then
          (g.baseSequence.get? (currentIndex - nLevel)).map (fun s => (s.audio, c1))
        else if nLevel ≤ currentIndex then
          match g.baseSequence.get? (currentIndex - nLevel) with
          | none => none
          | some nb => resampleValue rand (g.maxAudio + 1) (fun v => v == nb.audio) fuel c1
        else
          resampleValue rand (g.maxAudio + 1) (fun _ => false) fuel c1) with
      | none => none
      | some (audio, c2) =>
        let stimulus : GameSequence := ⟨position, audio, now + (currentIndex : Int) * 3000⟩
        let g' := g.pushStimulus stimulus
        let segmentSize := g.state.currentConfig.segmentSize
        -- JS: (currentIndex - nLevel) % segmentSize === segmentSize - 1; % is the
        -- truncating remainder, and for segmentSize = 0 the lhs is NaN, which
        -- equals nothing.
        if segmentSize ≠ 0 ∧
            Int.tmod ((currentIndex : Int) - (nLevel : Int)) (segmentSize : Int) =
              (segmentSize : Int) - 1 then
          match g'.planNextSegment rand c2 with
          | none => none
          | some (g'', c3) => some (stimulus, g'', c3)
        else some (stimulus, g', c2)

/-- Source AdaptiveSequenceGenerator.peekNextStimulus (reads, never writes,
    the generator; a non-match slot draws exactly once, without the
    resampling loop). -/
def AdaptiveSequenceGenerator.peekNextStimulus (g : AdaptiveSequenceGenerator)
    (rand : ℕ → ℚ) (now : Int) (c : ℕ) : Option (GameSequence × ℕ) :=
  let currentIndex := g.state.generatedCount
  let nLevel := g.state.currentConfig.nLevel
  if currentIndex < g.baseSequence.length then
    (g.baseSequence.get? currentIndex).map (fun st => (st, c))
  else
    let sPM := g.state.nextSegmentPositionMatches.contains currentIndex
    let sAM := g.state.nextSegmentAudioMatches.contains currentIndex
    match (if sPM && decide (nLevel ≤ currentIndex) then
        (g.baseSequence.get? (currentIndex - nLevel)).map (fun s => (s.position, c))
      else some (⌊rand c * ((g.maxPosition : ℚ) + 1)⌋, c + 1)) with
    | none => none
    | some (position, c1) =>
      match (if sAM && decide (nLevel ≤ currentIndex) then
          (g.baseSequence.get? (currentIndex - nLevel)).map (fun s => (s.audio, c1))
        else some (⌊rand c1 * ((g.maxAudio : ℚ) + 1)⌋, c1 + 1)) with
      | none => none
      | some (audio, c2) =>
        some (⟨position, audio, now + (currentIndex : Int) * 3000⟩, c2)

/-- missedResponses / totalResponses as computed by updateConfig
    (0 when totalResponses is not positive, as in the source's ternary). -/
def snapshotMissedRate (s : PerformanceSnapshot) : ℚ :=
  if 0 < s.totalResponses then s.missedResponses / s.totalResponses else 0

/-- The (matchRateMultiplier, complexityAdjustment) pair updateConfig picks
    from one snapshot. -/
def adaptiveAdjustment (accuracy missedRate : ℚ) : ℚ × ℚ :=
  if 85 < accuracy ∧ missedRate < 0.1 then (1.2, 0.05)
  else if accuracy < 60 ∨ 0.3 < missedRate then (0.8, -0.05)
  else (1.0, 0)

/-- Source AdaptiveSequenceGenerator.updateConfig. -/
def AdaptiveSequenceGenerator.updateConfig (g : AdaptiveSequenceGenerator)
    (performanceSnapshot : PerformanceSnapshot) (rand : ℕ → ℚ) (c : ℕ) :
    Option (AdaptiveSequenceGenerator × ℕ) :=
  let accuracy := performanceSnapshot.accuracy
  let missedRate : ℚ := snapshotMissedRate performanceSnapshot
  let adj : ℚ × ℚ := adaptiveAdjustment accuracy missedRate
  let cfg := g.state.currentConfig
  let newConfig := { cfg with
    targetPositionMatchRate := max 0.15 (min 0.45 (cfg.targetPositionMatchRate * adj.1)),
    targetAudioMatchRate := max 0.15 (min 0.45 (cfg.targetAudioMatchRate * adj.1)),
    overlapBonus := max 0 (min 0.2 (cfg.overlapBonus + adj.2)) }
  let g1 : AdaptiveSequenceGenerator :=
    { g with state := { g.state with currentConfig := newConfig } }
  g1.planNextSegment rand c

/-- Source AdaptiveSequenceGenerator.reset (this.maxPosition is kept, not
    recomputed from the new config, exactly as in the source). -/
def AdaptiveSequenceGenerator.reset (g : AdaptiveSequenceGenerator)
    (config : AdaptiveConfig) (rand : ℕ → ℚ) (now : Int) (c : ℕ) :
    Option (AdaptiveSequenceGenerator × ℕ) :=
  let g0 : AdaptiveSequenceGenerator :=
    { g with
      state := { generatedCount := 0, recentPositions := [], recentAudios := [],
                 currentConfig := config, nextSegmentPositionMatches := [],
                 nextSegmentAudioMatches := [] },
      baseSequence := [] }
  let g1 := g0.generateInitialStimuli rand now c
  (g1.1).planNextSegment rand g1.2

/-- Every pair of matched slots of a pattern is separated by more than
    minGap (the gap constraint isValidPosition enforces). -/
def gapRespected (pattern : List Bool) (minGap : ℕ) : Prop :=
  ∀ i j : ℕ, i < j → pattern.getD i false = true → pattern.getD j false = true →
    minGap < j - i

/-- No matched slot of a pattern has maxConsecutive matched slots
    immediately before it, i.e. no run of matches exceeds maxConsecutive
    (the consecutive constraint isValidPosition enforces). -/
def consecRespected (pattern : List Bool) (maxConsecutive : ℕ) : Prop :=
  ∀ i : ℕ, pattern.getD i false = true → consecutiveBefore pattern i < maxConsecutive

/-- The loop invariant of placeMatches' two placement loops: the pattern
    keeps its length, the number of matches equals the placed counter and
    stays within the target, every match sits at or before lastPlaced, and
    the gap and consecutive constraints hold. -/
def PlaceInv (minGap maxConsecutive length : ℕ) (targetMatches : Int)
    (pattern : List Bool) (placed lastPlaced : Int) : Prop :=
  pattern.length = length ∧
  (pattern.count true : Int) = placed ∧
  0 ≤ placed ∧
  placed ≤ max targetMatches 0 ∧
  (∀ i : ℕ, pattern.getD i false = true → (i : Int) ≤ lastPlaced) ∧
  gapRespected pattern minGap ∧
  consecRespected pattern maxConsecutive

/-- The materialized-matches-the-plan property at one index. -/
def matchesPlanAt (posPlan audioPlan : List Bool) (nLevel : ℕ)
    (seq : List GameSequence) (i : ℕ) : Prop :=
  ((seq.getD i ⟨0, 0, 0⟩).position = (seq.getD (i - nLevel) ⟨0, 0, 0⟩).position ↔
    posPlan.getD (i - nLevel) false = true) ∧
  ((seq.getD i ⟨0, 0, 0⟩).audio = (seq.getD (i - nLevel) ⟨0, 0, 0⟩).audio ↔
    audioPlan.getD (i - nLevel) false = true)

/-- A medium-preset configuration for concrete generator runs. -/
def c8cfg : AdaptiveConfig :=
  { nLevel := 2, gridSize := 3, difficulty := Difficulty.medium, segmentSize := 2,
    targetPositionMatchRate := 0.3, targetAudioMatchRate := 0.3,
    maxConsecutive := 2, minGap := 1, overlapBonus := 0.1 }

/-- A concrete generator holding two stored stimuli with the cursor at 2. -/
def c8gen : AdaptiveSequenceGenerator :=
  { state := { generatedCount := 2, recentPositions := [0, 1], recentAudios := [0, 1],
               currentConfig := c8cfg, nextSegmentPositionMatches := [],
               nextSegmentAudioMatches := [] },
    maxPosition := 8, maxAudio := 7,
    baseSequence := [⟨0, 0, 0⟩, ⟨1, 1, 3000⟩] }

/-- An excellent snapshot (accuracy 95, no misses out of 20 responses). -/
def c8snap : PerformanceSnapshot := ⟨95, 500, 0, 20, 0, 1⟩

/-- The generator updateConfig produces from c8gen and c8snap on the
    all-zero tape: both rates scaled from 0.3 to 0.36, the overlap bonus
    raised from 0.1 to 0.15, and both forward plans at index 3
    (start index 2 plus shuffled slot 1). -/
def c8cfg' : AdaptiveConfig :=
  { c8cfg with
    targetPositionMatchRate := 0.36,
    targetAudioMatchRate := 0.36,
    overlapBonus := 0.15 }

/-- The generator state after the update (plans at index 3). -/
def c8gen' : AdaptiveSequenceGenerator :=
  { state := { generatedCount := 2, recentPositions := [0, 1], recentAudios := [0, 1],
               currentConfig := c8cfg',
               nextSegmentPositionMatches := [3], nextSegmentAudioMatches := [3] },
    maxPosition := 8, maxAudio := 7,
    baseSequence := [⟨0, 0, 0⟩, ⟨1, 1, 3000⟩] }

/-- An easy 1-back configuration on a 2x2 grid for the generator run. -/
def c10cfg : AdaptiveConfig :=
  { nLevel := 1, gridSize := 2, difficulty := Difficulty.easy, segmentSize := 2,
    targetPositionMatchRate := 0.35, targetAudioMatchRate := 0.35,
    maxConsecutive := 1, minGap := 2, overlapBonus := 0.05 }

/-- A tape that is 0 except at draws 4 and 5 (the two resampled values of
    the first generated stimulus), which are 1/4. -/
def c10rand (n : ℕ) : ℚ := if n = 4 ∨ n = 5 then 1/4 else 0

/-- The generator the constructor builds from c10cfg on tape c10rand: one
    seeded stimulus and both forward plans at index 2. -/
def c10gen : AdaptiveSequenceGenerator :=
  { state := { generatedCount := 1, recentPositions := [0], recentAudios := [0],
               currentConfig := c10cfg, nextSegmentPositionMatches := [2],
               nextSegmentAudioMatches := [2] },
    maxPosition := 3, maxAudio := 7,
    baseSequence := [⟨0, 0, 0⟩] }

/-- The generator after one getNextStimulus call on c10gen: the non-match
    stimulus (1, 2) is appended and the cursor advances to 2. -/
def c10gen2 : AdaptiveSequenceGenerator :=
  { state := { generatedCount := 2, recentPositions := [0, 1], recentAudios := [0, 2],
               currentConfig := c10cfg, nextSegmentPositionMatches := [2],
               nextSegmentAudioMatches := [2] },
    maxPosition := 3, maxAudio := 7,
    baseSequence := [⟨0, 0, 0⟩, ⟨1, 2, 3000⟩] }

/- ------------------------------------------------------------------ -/
/- Theorems                                                            -/
/- ------------------------------------------------------------------ -/

/-- C7: for non-negative counts and totalRounds > 0, calculateAccuracy
    returns 100 * (correct + max 0 (totalRounds - correct - incorrect -
    missed)) / totalRounds, crediting correct non-responses; for
    totalRounds = 0 it returns 0. -/
theorem C7_calculateAccuracy_credits_non_responses
    (correct incorrect missed totalRounds : ℚ)
    (hc : 0 ≤ correct) (hi : 0 ≤ incorrect) (hm : 0 ≤ missed) :
    (0 < totalRounds →
      calculateAccuracy correct incorrect missed totalRounds =
        100 * (correct + max 0 (totalRounds - correct - incorrect - missed)) / totalRounds) ∧
    calculateAccuracy correct incorrect missed 0 = 0 := by
  constructor
  · intro ht
    simp only [calculateAccuracy]
    rw [if_neg (ne_of_gt ht)]
    ring
  · simp [calculateAccuracy]

/-- C7 witness: a concrete evaluation. -/
theorem C7_witness :
    ((0 : ℚ) ≤ 3 ∧ (0 : ℚ) ≤ 1 ∧ (0 : ℚ) ≤ 1 ∧ (0 : ℚ) < 10) ∧
    calculateAccuracy 3 1 1 10 = 100 * (3 + max 0 (10 - 3 - 1 - 1)) / 10 ∧
    calculateAccuracy 3 1 1 0 = 0 := by
  refine ⟨by norm_num, ?_, ?_⟩
  · exact (C7_calculateAccuracy_credits_non_responses 3 1 1 10 (by norm_num)
      (by norm_num) (by norm_num)).1 (by norm_num)
  · exact (C7_calculateAccuracy_credits_non_responses 3 1 1 10 (by norm_num)
      (by norm_num) (by norm_num)).2

/-- C9: a response log whose trailing window is empty yields the neutral
    snapshot (accuracy 0, responseTime 0, missedResponses 0,
    totalResponses 0, difficulty 1) from both createPerformanceSnapshot
    variants, with no error. -/
theorem C9_empty_window_neutral_snapshot (responses : List GameResponse)
    (currentRound timeWindow now : Int)
    (h : jsSliceFrom responses (-timeWindow) = []) :
    createPerformanceSnapshot responses currentRound timeWindow now = ⟨0, 0, 0, 0, now, 1⟩ ∧
    createPerformanceSnapshotB responses timeWindow now = ⟨0, 0, 0, 0, now, 1⟩ := by
  constructor
  · simp [createPerformanceSnapshot, h]
  · simp [createPerformanceSnapshotB, h]

/-- C9 witness: the empty log. -/
theorem C9_witness :
    jsSliceFrom ([] : List GameResponse) (-5) = [] ∧
    createPerformanceSnapshot [] 0 5 7 = ⟨0, 0, 0, 0, 7, 1⟩ ∧
    createPerformanceSnapshotB [] 5 7 = ⟨0, 0, 0, 0, 7, 1⟩ := by
  refine ⟨by decide, ?_, ?_⟩
  · exact (C9_empty_window_neutral_snapshot [] 0 5 7 (by decide)).1
  · exact (C9_empty_window_neutral_snapshot [] 0 5 7 (by decide)).2

/-- C5 counterexample: an index past the end of the sequence whose n-back
    reference is in range dereferences undefined in the source (a
    TypeError, modelled none), it does not return false as claimed. -/
theorem C5_counterexample :
    shouldPositionMatch [⟨0, 0, 0⟩] 5 1 = none ∧
    shouldPositionMatch [⟨0, 0, 0⟩] 5 1 ≠ some false ∧
    shouldAudioMatch [⟨0, 0, 0⟩] 5 1 = none ∧
    shouldAudioMatch [⟨0, 0, 0⟩] 5 1 ≠ some false := by
  decide

/-- C5 amended: an index whose n-back reference falls before index 0
    returns false (no match possible, no error); but an index at or past
    the sequence length whose n-back reference is non-negative is an
    error (undefined dereference), not false. -/
theorem C5_match_helpers_range (sequence : List GameSequence)
    (currentIndex nLevel : Int) :
    (currentIndex - nLevel < 0 →
      shouldPositionMatch sequence currentIndex nLevel = some false ∧
      shouldAudioMatch sequence currentIndex nLevel = some false) ∧
    (0 ≤ currentIndex - nLevel → (sequence.length : Int) ≤ currentIndex →
      shouldPositionMatch sequence currentIndex nLevel = none ∧
      shouldAudioMatch sequence currentIndex nLevel = none) := by
  constructor
  · intro h
    constructor
    · simp only [shouldPositionMatch]
      rw [if_pos h]
    · simp only [shouldAudioMatch]
      rw [if_pos h]
  · intro h1 h2
    have hc0 : (0 : Int) ≤ currentIndex :=
      le_trans (Int.ofNat_nonneg sequence.length) h2
    have hget : sequence.get? currentIndex.toNat = none := by
      rw [List.get?_eq_none]
      exact_mod_cast (Int.toNat_le_toNat h2).trans_eq (congrArg Int.toNat rfl) |>.trans_eq rfl
    constructor
    · simp only [shouldPositionMatch]
      rw [if_neg (not_lt.mpr h1), if_neg (not_lt.mpr hc0), hget]
    · simp only [shouldAudioMatch]
      rw [if_neg (not_lt.mpr h1), if_neg (not_lt.mpr hc0), hget]

/-- C5 witness: concrete instances of both amended cases. -/
theorem C5_witness :
    ((1 : Int) - 3 < 0 ∧ shouldPositionMatch [⟨1, 2, 3⟩] 1 3 = some false ∧
      shouldAudioMatch [⟨1, 2, 3⟩] 1 3 = some false) ∧
    ((0 : Int) ≤ 7 - 2 ∧ (([⟨1, 2, 3⟩] : List GameSequence).length : Int) ≤ 7 ∧
      shouldPositionMatch [⟨1, 2, 3⟩] 7 2 = none ∧
      shouldAudioMatch [⟨1, 2, 3⟩] 7 2 = none) := by
  refine ⟨⟨by decide, ?_⟩, ⟨by decide, by decide, ?_⟩⟩
  · exact (C5_match_helpers_range [⟨1, 2, 3⟩] 1 3).1 (by decide)
  · exact (C5_match_helpers_range [⟨1, 2, 3⟩] 7 2).2 (by decide) (by decide)


/-- C3: a history of length at least 3 whose last three snapshots average
    accuracy at least max(85, 95 - 2*nLevel) with average missed rate below
    0.1 yields shouldAdjust = true and increase; urgency is high exactly
    when every one of the three snapshots individually reaches the
    threshold, and medium otherwise. -/
theorem C3_excellent_triggers_increase (history : List PerformanceSnapshot)
    (nLevel : ℚ) (h3 : 3 ≤ history.length)
    (hpos : ∀ p ∈ jsSliceFrom history (-3), 0 < p.totalResponses)
    (hacc : excellentThresholdOf nLevel ≤ avgAccuracyOf (jsSliceFrom history (-3)))
    (hmiss : avgMissedRateOf (jsSliceFrom history (-3)) < 0.1) :
    (analyzeAdaptiveTriggers history nLevel).shouldAdjust = true ∧
    (analyzeAdaptiveTriggers history nLevel).recommendedAction = .increase ∧
    ((analyzeAdaptiveTriggers history nLevel).urgency = .high ↔
      ∀ p ∈ jsSliceFrom history (-3), excellentThresholdOf nLevel ≤ p.accuracy) ∧
    ((analyzeAdaptiveTriggers history nLevel).urgency = .medium ↔
      ¬ ∀ p ∈ jsSliceFrom history (-3), excellentThresholdOf nLevel ≤ p.accuracy) := by
  simp only [analyzeAdaptiveTriggers]
  rw [if_neg (by omega), if_pos ⟨hacc, hmiss⟩]
  by_cases hb : (jsSliceFrom history (-3)).all
      (fun p => decide (excellentThresholdOf nLevel ≤ p.accuracy)) = true
  · rw [if_pos hb]
    simp only [List.all_eq_true, decide_eq_true_eq] at hb
    exact ⟨rfl, rfl, ⟨fun _ => hb, fun _ => rfl⟩,
      ⟨fun h => Urgency.noConfusion h, fun h => absurd hb h⟩⟩
  · rw [if_neg hb]
    simp only [List.all_eq_true, decide_eq_true_eq] at hb
    exact ⟨rfl, rfl, ⟨fun h => Urgency.noConfusion h, fun h => absurd h hb⟩,
      ⟨fun _ => hb, fun _ => rfl⟩⟩

/-- C3 witness: accuracies [95, 96, 97] with missed rate 0.05 at nLevel 2
    give increase with high urgency (all three clear the threshold 91);
    accuracies [90, 92, 93] average above 91 but the first misses it, so
    the same rule gives increase with medium urgency. -/
theorem C3_witness :
    (3 ≤ excellentHistory.length ∧
     (∀ p ∈ jsSliceFrom excellentHistory (-3), 0 < p.totalResponses) ∧
     excellentThresholdOf 2 ≤ avgAccuracyOf (jsSliceFrom excellentHistory (-3)) ∧
     avgMissedRateOf (jsSliceFrom excellentHistory (-3)) < 0.1) ∧
    (analyzeAdaptiveTriggers excellentHistory 2).shouldAdjust = true ∧
    (analyzeAdaptiveTriggers excellentHistory 2).recommendedAction = .increase ∧
    (analyzeAdaptiveTriggers excellentHistory 2).urgency = .high ∧
    (analyzeAdaptiveTriggers mixedHistory 2).shouldAdjust = true ∧
    (analyzeAdaptiveTriggers mixedHistory 2).recommendedAction = .increase ∧
    (analyzeAdaptiveTriggers mixedHistory 2).urgency = .medium := by
  refine ⟨⟨by decide, by with_unfolding_all decide, by with_unfolding_all decide,
    by with_unfolding_all decide⟩, ?_, ?_, ?_, ?_, ?_, ?_⟩
  · exact (C3_excellent_triggers_increase excellentHistory 2 (by decide)
      (by with_unfolding_all decide) (by with_unfolding_all decide)
      (by with_unfolding_all decide)).1
  · exact (C3_excellent_triggers_increase excellentHistory 2 (by decide)
      (by with_unfolding_all decide) (by with_unfolding_all decide)
      (by with_unfolding_all decide)).2.1
  · exact (C3_excellent_triggers_increase excellentHistory 2 (by decide)
      (by with_unfolding_all decide) (by with_unfolding_all decide)
      (by with_unfolding_all decide)).2.2.1.mpr (by with_unfolding_all decide)
  · exact (C3_excellent_triggers_increase mixedHistory 2 (by decide)
      (by with_unfolding_all decide) (by with_unfolding_all decide)
      (by with_unfolding_all decide)).1
  · exact (C3_excellent_triggers_increase mixedHistory 2 (by decide)
      (by with_unfolding_all decide) (by with_unfolding_all decide)
      (by with_unfolding_all decide)).2.1
  · exact (C3_excellent_triggers_increase mixedHistory 2 (by decide)
      (by with_unfolding_all decide) (by with_unfolding_all decide)
      (by with_unfolding_all decide)).2.2.2.mpr (by with_unfolding_all decide)

/-- C4: a history of length at least 3 failing the excellent test whose
    last three snapshots average accuracy at most max(50, 65 - 3*nLevel) or
    average missed rate above 0.4 yields decrease, with urgency high
    exactly when the average accuracy is at most the threshold minus 10,
    and medium otherwise. -/
theorem C4_poor_triggers_decrease (history : List PerformanceSnapshot)
    (nLevel : ℚ) (h3 : 3 ≤ history.length)
    (hpos : ∀ p ∈ jsSliceFrom history (-3), 0 < p.totalResponses)
    (hnotexc : ¬(excellentThresholdOf nLevel ≤ avgAccuracyOf (jsSliceFrom history (-3)) ∧
      avgMissedRateOf (jsSliceFrom history (-3)) < 0.1))
    (hpoor : avgAccuracyOf (jsSliceFrom history (-3)) ≤ poorThresholdOf nLevel ∨
      0.4 < avgMissedRateOf (jsSliceFrom history (-3))) :
    (analyzeAdaptiveTriggers history nLevel).shouldAdjust = true ∧
    (analyzeAdaptiveTriggers history nLevel).recommendedAction = .decrease ∧
    ((analyzeAdaptiveTriggers history nLevel).urgency = .high ↔
      avgAccuracyOf (jsSliceFrom history (-3)) ≤ poorThresholdOf nLevel - 10) ∧
    ((analyzeAdaptiveTriggers history nLevel).urgency = .medium ↔
      ¬ avgAccuracyOf (jsSliceFrom history (-3)) ≤ poorThresholdOf nLevel - 10) := by
  simp only [analyzeAdaptiveTriggers]
  rw [if_neg (by omega), if_neg hnotexc, if_pos hpoor]
  by_cases hb : avgAccuracyOf (jsSliceFrom history (-3)) ≤ poorThresholdOf nLevel - 10
  · rw [if_pos hb]
    exact ⟨rfl, rfl, ⟨fun _ => hb, fun _ => rfl⟩,
      ⟨fun h => Urgency.noConfusion h, fun h => absurd hb h⟩⟩
  · rw [if_neg hb]
    exact ⟨rfl, rfl, ⟨fun h => Urgency.noConfusion h, fun h => absurd h hb⟩,
      ⟨fun _ => hb, fun _ => rfl⟩⟩

/-- C4 witness: accuracies [40, 38, 35] at nLevel 3 average 113/3, at most
    46 = threshold - 10, giving decrease with high urgency; accuracies
    [50, 52, 54] average 52, under the threshold 56 but above 46, giving
    decrease with medium urgency. -/
theorem C4_witness :
    (3 ≤ poorHistory.length ∧
     (∀ p ∈ jsSliceFrom poorHistory (-3), 0 < p.totalResponses) ∧
     ¬(excellentThresholdOf 3 ≤ avgAccuracyOf (jsSliceFrom poorHistory (-3)) ∧
       avgMissedRateOf (jsSliceFrom poorHistory (-3)) < 0.1) ∧
     (avgAccuracyOf (jsSliceFrom poorHistory (-3)) ≤ poorThresholdOf 3 ∨
       0.4 < avgMissedRateOf (jsSliceFrom poorHistory (-3)))) ∧
    (analyzeAdaptiveTriggers poorHistory 3).shouldAdjust = true ∧
    (analyzeAdaptiveTriggers poorHistory 3).recommendedAction = .decrease ∧
    (analyzeAdaptiveTriggers poorHistory 3).urgency = .high ∧
    (analyzeAdaptiveTriggers mediocreHistory 3).recommendedAction = .decrease ∧
    (analyzeAdaptiveTriggers mediocreHistory 3).urgency = .medium := by
  refine ⟨⟨by decide, by with_unfolding_all decide, by with_unfolding_all decide,
    by with_unfolding_all decide⟩, ?_, ?_, ?_, ?_, ?_⟩
  · exact (C4_poor_triggers_decrease poorHistory 3 (by decide)
      (by with_unfolding_all decide) (by with_unfolding_all decide)
      (by with_unfolding_all decide)).1
  · exact (C4_poor_triggers_decrease poorHistory 3 (by decide)
      (by with_unfolding_all decide) (by with_unfolding_all decide)
      (by with_unfolding_all decide)).2.1
  · exact (C4_poor_triggers_decrease poorHistory 3 (by decide)
      (by with_unfolding_all decide) (by with_unfolding_all decide)
      (by with_unfolding_all decide)).2.2.1.mpr (by with_unfolding_all decide)
  · exact (C4_poor_triggers_decrease mediocreHistory 3 (by decide)
      (by with_unfolding_all decide) (by with_unfolding_all decide)
      (by with_unfolding_all decide)).2.1
  · exact (C4_poor_triggers_decrease mediocreHistory 3 (by decide)
      (by with_unfolding_all decide) (by with_unfolding_all decide)
      (by with_unfolding_all decide)).2.2.2.mpr (by with_unfolding_all decide)

/-- Setting a slot leaves earlier prefixes untouched. -/
theorem take_set_of_le (l : List Bool) (i j : ℕ) (b : Bool) (h : j ≤ i) :
    (l.set i b).take j = l.take j := by
  induction l generalizing i j with
  | nil => simp
  | cons a as ih =>
    cases i with
    | zero =>
      have hj : j = 0 := Nat.le_zero.mp h
      simp [hj]
    | succ n =>
      cases j with
      | zero => simp
      | succ m => simp [List.set, ih n m (Nat.succ_le_succ_iff.mp h)]

/-- getD after set at the same (in-range) slot. -/
theorem getD_set_self (l : List Bool) (i : ℕ) (b : Bool) (h : i < l.length) :
    (l.set i b).getD i false = b := by
  induction l generalizing i with
  | nil => simp at h
  | cons a as ih =>
    cases i with
    | zero => simp [List.set]
    | succ n => simpa [List.set] using ih n (by simpa using h)

/-- getD after set at a different slot. -/
theorem getD_set_ne (l : List Bool) (i j : ℕ) (b : Bool) (h : i ≠ j) :
    (l.set i b).getD j false = l.getD j false := by
  induction l generalizing i j with
  | nil => simp
  | cons a as ih =>
    cases i with
    | zero =>
      cases j with
      | zero => exact absurd rfl h
      | succ m => simp [List.set]
    | succ n =>
      cases j with
      | zero => simp [List.set]
      | succ m => simpa [List.set] using ih n m (by omega)

/-- Setting a false in-range slot to true adds exactly one match. -/
theorem count_set_true (l : List Bool) (i : ℕ) (h : i < l.length)
    (hf : l.getD i false = false) :
    (l.set i true).count true = l.count true + 1 := by
  induction l generalizing i with
  | nil => simp at h
  | cons a as ih =>
    cases i with
    | zero =>
      have ha : a = false := by simpa using hf
      subst ha
      simp [List.set, List.count_cons]
    | succ n =>
      have hr := ih n (by simpa using h) (by simpa using hf)
      simp only [List.set, List.count_cons, hr]
      omega

/-- All-false patterns have no matches anywhere. -/
theorem getD_replicate_false (n i : ℕ) : (List.replicate n false).getD i false = false := by
  induction n generalizing i with
  | zero => simp
  | succ m ih =>
    cases i with
    | zero => simp [List.replicate]
    | succ k => simpa [List.replicate] using ih k

/-- consecutiveBefore only reads the prefix, so a set at or after the
    position does not change it. -/
theorem consecutiveBefore_set_of_le (l : List Bool) (i j : ℕ) (b : Bool) (h : j ≤ i) :
    consecutiveBefore (l.set i b) j = consecutiveBefore l j := by
  unfold consecutiveBefore
  rw [take_set_of_le l i j b h]

/-- The reduce of the fill loop picks an element of the slot pool. -/
theorem foldl_best_mem (f : ℕ → ℚ) (s0 : ℕ) (ss : List ℕ) :
    ss.foldl (fun best current => if f best < f current then current else best) s0 ∈ s0 :: ss := by
  induction ss generalizing s0 with
  | nil => simp
  | cons a as ih =>
    simp only [List.foldl_cons]
    by_cases h : f s0 < f a
    · rw [if_pos h]
      exact List.mem_cons_of_mem _ (ih a)
    · rw [if_neg h]
      rcases List.mem_cons.mp (ih s0) with h1 | h1
      · rw [h1]
        exact List.mem_cons_self _ _
      · exact List.mem_cons_of_mem _ (List.mem_cons_of_mem _ h1)


/-- What a successful isValidPosition check guarantees. -/
theorem isValidPosition_spec (pattern : List Bool) (slot : ℕ) (last : Int)
    (minGap maxC : ℕ) (ex : Option (List Bool)) (av : Bool)
    (h : isValidPosition pattern slot last minGap maxC ex av = true) :
    (minGap : Int) < (slot : Int) - last ∧ consecutiveBefore pattern slot < maxC := by
  unfold isValidPosition at h
  split_ifs at h with h1 h2
  exact ⟨not_le.mp h1, of_decide_eq_true h⟩

/-- Placing one match at a valid slot preserves the placement invariant
    (and the slot was necessarily still empty). -/
theorem place_step (minGap maxC length : ℕ) (target : Int)
    (pattern : List Bool) (placed last : Int) (slot : ℕ)
    (ex : Option (List Bool)) (av : Bool)
    (hInv : PlaceInv minGap maxC length target pattern placed last)
    (hval : isValidPosition pattern slot last minGap maxC ex av = true)
    (hslot : slot < length) (hlt : placed < target) :
    pattern.getD slot false = false ∧
    PlaceInv minGap maxC length target (pattern.set slot true) (placed + 1) (slot : Int) := by
  obtain ⟨hlen, hcount, hpl0, hplmax, hle, hgap, hconsec⟩ := hInv
  obtain ⟨hgapc, hcb⟩ := isValidPosition_spec pattern slot last minGap maxC ex av hval
  have hmg0 : (0 : Int) ≤ (minGap : Int) := Int.ofNat_nonneg minGap
  have hlast : last < (slot : Int) := by omega
  have hfalse : pattern.getD slot false = false := by
    cases hx : pattern.getD slot false
    · rfl
    · have := hle slot hx
      omega
  refine ⟨hfalse, ?_, ?_, ?_, ?_, ?_, ?_, ?_⟩
  · rw [List.length_set]
    exact hlen
  · have hc := count_set_true pattern slot (by rw [hlen]; exact hslot) hfalse
    rw [hc]
    push_cast
    omega
  · omega
  · have : target ≤ max target 0 := le_max_left _ _
    omega
  · intro i hi
    by_cases hi' : i = slot
    · subst hi'
      exact le_refl _
    · rw [getD_set_ne pattern slot i true (fun hh => hi' hh.symm)] at hi
      have := hle i hi
      omega
  · intro i j hij hi hj
    by_cases hjs : j = slot
    · rw [hjs] at hij ⊢
      have hine : slot ≠ i := by omega
      rw [getD_set_ne pattern slot i true hine] at hi
      have := hle i hi
      omega
    · rw [getD_set_ne pattern slot j true (fun hh => hjs hh.symm)] at hj
      by_cases his : i = slot
      · rw [his] at hij
        have := hle j hj
        omega
      · rw [getD_set_ne pattern slot i true (fun hh => his hh.symm)] at hi
        exact hgap i j hij hi hj
  · intro i hi
    by_cases his : i = slot
    · subst his
      rw [consecutiveBefore_set_of_le pattern i i true (le_refl i)]
      exact hcb
    · rw [getD_set_ne pattern slot i true (fun hh => his hh.symm)] at hi
      have h1 := hle i hi
      have h2 : i ≤ slot := by omega
      rw [consecutiveBefore_set_of_le pattern slot i true h2]
      exact hconsec i hi

/-- The weighted placement pass preserves the placement invariant. -/
theorem passLoop_inv (fexp : ℚ → ℚ) (rand : ℕ → ℚ) (length : ℕ) (target : Int)
    (maxC minGap : ℕ) (bell av : Bool) (ex : Option (List Bool)) :
    ∀ (slots : List ℕ) (pattern : List Bool) (placed last : Int) (c : ℕ),
      (∀ s ∈ slots, s < length) →
      PlaceInv minGap maxC length target pattern placed last →
      PlaceInv minGap maxC length target
        (passLoop fexp rand length target maxC minGap bell av ex slots
          (pattern, placed, last, c)).1
        (passLoop fexp rand length target maxC minGap bell av ex slots
          (pattern, placed, last, c)).2.1
        (passLoop fexp rand length target maxC minGap bell av ex slots
          (pattern, placed, last, c)).2.2.1 := by
  intro slots
  induction slots with
  | nil =>
    intro pattern placed last c _ hInv
    simpa only [passLoop] using hInv
  | cons slot rest ih =>
    intro pattern placed last c hb hInv
    have hbrest : ∀ s ∈ rest, s < length := fun s hs => hb s (List.mem_cons_of_mem _ hs)
    simp only [passLoop]
    split_ifs with h1 h2 h3 h4 h5
    · exact hInv
    · exact ih pattern placed last c hbrest hInv
    · have hval : isValidPosition pattern slot last minGap maxC ex av = true := by
        cases hx : isValidPosition pattern slot last minGap maxC ex av
        · rw [hx] at h2
          simp at h2
        · rfl
      exact ih _ _ _ _ hbrest (place_step minGap maxC length target pattern placed last
        slot ex av hInv hval (hb slot (List.mem_cons_self _ _)) (lt_of_not_le h1)).2
    · exact ih pattern placed last (c + 1) hbrest hInv
    · have hval : isValidPosition pattern slot last minGap maxC ex av = true := by
        cases hx : isValidPosition pattern slot last minGap maxC ex av
        · rw [hx] at h2
          simp at h2
        · rfl
      exact ih _ _ _ _ hbrest (place_step minGap maxC length target pattern placed last
        slot ex av hInv hval (hb slot (List.mem_cons_self _ _)) (lt_of_not_le h1)).2
    · exact ih pattern placed last (c + 1) hbrest hInv

/-- The deterministic fill loop preserves the placement invariant. -/
theorem fillLoop_inv (fexp : ℚ → ℚ) (length : ℕ) (target : Int)
    (maxC minGap : ℕ) (bell av : Bool) (ex : Option (List Bool)) (slots : List ℕ) :
    ∀ (fuel : ℕ) (pattern : List Bool) (placed last : Int),
      (∀ s ∈ slots, s < length) →
      PlaceInv minGap maxC length target pattern placed last →
      PlaceInv minGap maxC length target
        (fillLoop fexp length target maxC minGap bell av ex slots fuel
          (pattern, placed, last)).1
        (fillLoop fexp length target maxC minGap bell av ex slots fuel
          (pattern, placed, last)).2.1
        (fillLoop fexp length target maxC minGap bell av ex slots fuel
          (pattern, placed, last)).2.2 := by
  intro fuel
  induction fuel with
  | zero =>
    intro pattern placed last _ hInv
    simpa only [fillLoop] using hInv
  | succ n ih =>
    intro pattern placed last hb hInv
    simp only [fillLoop]
    split_ifs with h1
    · split
      · exact hInv
      · rename_i s0 ss heq
        have hmem : (ss.foldl (fun best current =>
            if weightOfSlot fexp bell length best < weightOfSlot fexp bell length current
            then current else best) s0) ∈ s0 :: ss :=
          foldl_best_mem (weightOfSlot fexp bell length) s0 ss
        rw [← heq] at hmem
        have hfilter := List.mem_filter.mp hmem
        have hpred := hfilter.2
        rw [Bool.and_eq_true] at hpred
        have hval : isValidPosition pattern _ last minGap maxC ex av = true := hpred.2
        have hstep := place_step minGap maxC length target pattern placed last _ ex av
          hInv hval (hb _ hfilter.1) h1
        exact ih _ _ _ hb hstep.2
    · exact hInv

/-- A successful swap preserves length and introduces no new elements. -/
theorem swapSlots_spec (l : List ℕ) (i j : ℕ) (l' : List ℕ)
    (h : swapSlots l i j = some l') :
    l'.length = l.length ∧ ∀ x ∈ l', x ∈ l := by
  unfold swapSlots at h
  cases hi : l.get? i with
  | none =>
    rw [hi] at h
    cases h
  | some a =>
    cases hj : l.get? j with
    | none =>
      rw [hi, hj] at h
      cases h
    | some b =>
      rw [hi, hj] at h
      cases h
      refine ⟨by rw [List.length_set, List.length_set], ?_⟩
      intro x hx
      rcases List.mem_or_eq_of_mem_set hx with hx1 | hx1
      · rcases List.mem_or_eq_of_mem_set hx1 with hx2 | hx2
        · exact hx2
        · rw [hx2]
          exact List.get?_mem hj
      · rw [hx1]
        exact List.get?_mem hi

/-- The shuffle loop preserves length and elements. -/
theorem fisherYatesLoop_spec (rand : ℕ → ℚ) :
    ∀ (k : ℕ) (l : List ℕ) (c : ℕ) (l' : List ℕ) (c' : ℕ),
      fisherYatesLoop rand k l c = some (l', c') →
      l'.length = l.length ∧ ∀ x ∈ l', x ∈ l := by
  intro k
  induction k with
  | zero =>
    intro l c l' c' h
    simp only [fisherYatesLoop] at h
    cases h
    exact ⟨rfl, fun x hx => hx⟩
  | succ i ih =>
    intro l c l' c' h
    simp only [fisherYatesLoop] at h
    split_ifs at h with h1
    split at h
    · rename_i l2 hsw
      have hs := swapSlots_spec l (i + 1) _ l2 hsw
      have hrec := ih l2 (c + 1) l' c' h
      exact ⟨hrec.1.trans hs.1, fun x hx => hs.2 x (hrec.2 x hx)⟩
    · exact Option.noConfusion h

/-- Under the Math.random contract the shuffle loop always succeeds. -/
theorem fisherYatesLoop_isSome (rand : ℕ → ℚ) (hr : ∀ n, 0 ≤ rand n ∧ rand n < 1) :
    ∀ (k : ℕ) (l : List ℕ) (c : ℕ), k < l.length →
      ∃ l' c', fisherYatesLoop rand k l c = some (l', c') := by
  intro k
  induction k with
  | zero =>
    intro l c _
    exact ⟨l, c, rfl⟩
  | succ i ih =>
    intro l c hk
    have h0 : (0 : ℚ) ≤ rand c := (hr c).1
    have h1 : rand c < 1 := (hr c).2
    have hj0 : 0 ≤ ⌊rand c * ((i : ℚ) + 2)⌋ := Int.floor_nonneg.mpr (by positivity)
    have hjlt : ⌊rand c * ((i : ℚ) + 2)⌋ < (i : Int) + 2 := by
      have hx : rand c * ((i : ℚ) + 2) < (i : ℚ) + 2 := by
        have hpos : (0 : ℚ) < (i : ℚ) + 2 := by positivity
        calc rand c * ((i : ℚ) + 2) < 1 * ((i : ℚ) + 2) :=
              mul_lt_mul_of_pos_right h1 hpos
          _ = (i : ℚ) + 2 := one_mul _
      rw [Int.floor_lt]
      push_cast
      exact hx
    have hjn : (⌊rand c * ((i : ℚ) + 2)⌋).toNat < l.length := by omega
    cases hga : l.get? (i + 1) with
    | none =>
      have := List.get?_eq_none.mp hga
      omega
    | some a =>
      cases hgb : l.get? (⌊rand c * ((i : ℚ) + 2)⌋).toNat with
      | none =>
        have := List.get?_eq_none.mp hgb
        omega
      | some b =>
        have hsw : swapSlots l (i + 1) (⌊rand c * ((i : ℚ) + 2)⌋).toNat =
            some ((l.set (i + 1) b).set (⌊rand c * ((i : ℚ) + 2)⌋).toNat a) := by
          unfold swapSlots
          rw [hga, hgb]
        have hlen2 : ((l.set (i + 1) b).set (⌊rand c * ((i : ℚ) + 2)⌋).toNat a).length
            = l.length := by
          rw [List.length_set, List.length_set]
        obtain ⟨l', c', hrec⟩ := ih ((l.set (i + 1) b).set (⌊rand c * ((i : ℚ) + 2)⌋).toNat a)
          (c + 1) (by omega)
        refine ⟨l', c', ?_⟩
        simp only [fisherYatesLoop]
        rw [if_neg (not_lt.mpr hj0)]
        simp only [hsw]
        exact hrec

/-- The pass is a no-op once the target is reached (in particular for
    targetMatches ≤ 0). -/
theorem passLoop_stop (fexp : ℚ → ℚ) (rand : ℕ → ℚ) (length : ℕ) (target : Int)
    (maxC minGap : ℕ) (bell av : Bool) (ex : Option (List Bool)) :
    ∀ (slots : List ℕ) (pattern : List Bool) (placed last : Int) (c : ℕ),
      target ≤ placed →
      passLoop fexp rand length target maxC minGap bell av ex slots
        (pattern, placed, last, c) = (pattern, placed, last, c) := by
  intro slots
  induction slots with
  | nil =>
    intro pattern placed last c _
    rfl
  | cons s rest ih =>
    intro pattern placed last c h
    simp only [passLoop]
    rw [if_pos h]

/-- The placement invariant of the all-false initial pattern. -/
theorem placeInv_init (minGap maxC length : ℕ) (target : Int) (last : Int) :
    PlaceInv minGap maxC length target (List.replicate length false) 0 last := by
  refine ⟨List.length_replicate length false, ?_, le_refl 0, le_max_right target 0, ?_, ?_, ?_⟩
  · have hc : (List.replicate length false).count true = 0 := by
      induction length with
      | zero => rfl
      | succ n ih => simpa [List.replicate, List.count_cons] using ih
    simp [hc]
  · intro i hi
    rw [getD_replicate_false] at hi
    exact Bool.noConfusion hi
  · intro i j _ hi _
    rw [getD_replicate_false] at hi
    exact Bool.noConfusion hi
  · intro i hi
    rw [getD_replicate_false] at hi
    exact Bool.noConfusion hi

/-- Whatever a successful placeMatches returns keeps the pattern length,
    stays within the target count, and satisfies the gap and consecutive
    constraints. -/
theorem placeMatches_inv (fexp : ℚ → ℚ) (rand : ℕ → ℚ) (length : ℕ)
    (target : Int) (maxC minGap : ℕ) (bell av : Bool)
    (ex : Option (List Bool)) (c : ℕ) (pattern : List Bool) (c1 : ℕ)
    (h : placeMatches fexp rand length target maxC minGap bell av ex c = some (pattern, c1)) :
    pattern.length = length ∧
    (pattern.count true : Int) ≤ max target 0 ∧
    gapRespected pattern minGap ∧
    consecRespected pattern maxC := by
  unfold placeMatches at h
  cases hfy : fisherYatesLoop rand (length - 1) (List.range length) c with
  | none =>
    rw [hfy] at h
    exact Option.noConfusion h
  | some sc =>
    obtain ⟨slots, cs⟩ := sc
    rw [hfy] at h
    simp only [Option.some.injEq, Prod.mk.injEq] at h
    obtain ⟨hpat, _⟩ := h
    have hbound : ∀ s ∈ slots, s < length := by
      intro s hs
      have := (fisherYatesLoop_spec rand (length - 1) (List.range length) c slots cs hfy).2
      exact List.mem_range.mp (this s hs)
    have hpass := passLoop_inv fexp rand length target maxC minGap bell av ex slots
      (List.replicate length false) 0 (-(minGap : Int) - 1) cs hbound
      (placeInv_init minGap maxC length target _)
    have hfill := fillLoop_inv fexp length target maxC minGap bell av ex slots
      ((target - (passLoop fexp rand length target maxC minGap bell av ex slots
        (List.replicate length false, 0, -(minGap : Int) - 1, cs)).2.1).toNat)
      _ _ _ hbound hpass
    rw [← hpat]
    obtain ⟨h1, h2, _, h4, _, h6, h7⟩ := hfill
    refine ⟨h1, ?_, h6, h7⟩
    omega

/-- placeMatches with a non-positive target returns the all-false pattern. -/
theorem placeMatches_nonpos (fexp : ℚ → ℚ) (rand : ℕ → ℚ) (length : ℕ)
    (target : Int) (maxC minGap : ℕ) (bell av : Bool)
    (ex : Option (List Bool)) (c : ℕ) (pattern : List Bool) (c1 : ℕ)
    (h : placeMatches fexp rand length target maxC minGap bell av ex c = some (pattern, c1))
    (ht : target ≤ 0) :
    pattern = List.replicate length false := by
  unfold placeMatches at h
  cases hfy : fisherYatesLoop rand (length - 1) (List.range length) c with
  | none =>
    rw [hfy] at h
    exact Option.noConfusion h
  | some sc =>
    obtain ⟨slots, cs⟩ := sc
    rw [hfy] at h
    simp only [passLoop_stop fexp rand length target maxC minGap bell av ex slots
      (List.replicate length false) 0 (-(minGap : Int) - 1) cs ht] at h
    have hfuel : (target - (0 : Int)).toNat = 0 := by omega
    simp only [hfuel, fillLoop, Option.some.injEq, Prod.mk.injEq] at h
    exact h.1.symm

/-- C6: placeMatches terminates and never errors (given the Math.random
    contract), returns a pattern of exactly the requested length with at
    most max(targetCount, 0) matches, and returns the all-false pattern
    for a non-positive target. -/
theorem C6_placeMatches_total_and_bounded (fexp : ℚ → ℚ) (rand : ℕ → ℚ)
    (hr : ∀ n, 0 ≤ rand n ∧ rand n < 1)
    (length : ℕ) (targetMatches : Int) (maxConsecutive minGap : ℕ)
    (useBellCurve avoidOverlap : Bool) (existingPattern : Option (List Bool)) (c : ℕ) :
    (placeMatches fexp rand length targetMatches maxConsecutive minGap useBellCurve
      avoidOverlap existingPattern c).isSome = true ∧
    ∀ pattern c1,
      placeMatches fexp rand length targetMatches maxConsecutive minGap useBellCurve
        avoidOverlap existingPattern c = some (pattern, c1) →
      pattern.length = length ∧
      (pattern.count true : Int) ≤ max targetMatches 0 ∧
      (targetMatches ≤ 0 → pattern = List.replicate length false) := by
  constructor
  · have hfy : ∃ l' c', fisherYatesLoop rand (length - 1) (List.range length) c =
        some (l', c') := by
      rcases Nat.eq_zero_or_pos length with h0 | hpos
      · subst h0
        exact ⟨List.range 0, c, rfl⟩
      · exact fisherYatesLoop_isSome rand hr (length - 1) (List.range length) c
          (by rw [List.length_range]; omega)
    obtain ⟨slots, cs, hfy⟩ := hfy
    unfold placeMatches
    rw [hfy]
    rfl
  · intro pattern c1 h
    have hp := placeMatches_inv fexp rand length targetMatches maxConsecutive minGap
      useBellCurve avoidOverlap existingPattern c pattern c1 h
    exact ⟨hp.1, hp.2.1, fun ht => placeMatches_nonpos fexp rand length targetMatches
      maxConsecutive minGap useBellCurve avoidOverlap existingPattern c pattern c1 h ht⟩

/-- C6 witness: the constant-zero stream satisfies the contract and a
    concrete call succeeds. -/
theorem C6_witness :
    (∀ n : ℕ, 0 ≤ (fun _ : ℕ => (0 : ℚ)) n ∧ (fun _ : ℕ => (0 : ℚ)) n < 1) ∧
    (placeMatches (fun _ => 1) (fun _ => 0) 9 3 1 2 true false none 0).isSome = true := by
  have hr : ∀ n : ℕ, 0 ≤ (fun _ : ℕ => (0 : ℚ)) n ∧ (fun _ : ℕ => (0 : ℚ)) n < 1 :=
    fun _ => ⟨le_refl 0, by norm_num⟩
  exact ⟨hr, (C6_placeMatches_total_and_bounded (fun _ => 1) (fun _ => 0) hr
    9 3 1 2 true false none 0).1⟩

/-- Stage evaluation of the concrete run: the two placement passes. -/
theorem cexEngagement : createEngagementPattern (fun _ => 1) cexRand 9 3 3 1 2 2 4 =
    some ((cexPosPlan0, cexAudPlan), 26) := by
  with_unfolding_all decide

/-- Stage evaluation of the concrete run: pattern breaking relocates the
    position match at slot 3 to slot 2. -/
theorem cexBreaking : addPatternBreaking cexRand cexPosPlan0 cexAudPlan 3 3 2 26 =
    some ((cexPosPlan, cexAudPlan), 28) := by
  with_unfolding_all decide

/-- Stage evaluation of the concrete run: materialization. -/
theorem cexMaterialize : materializeLoop cexRand cexPosPlan cexAudPlan 2 8 7 0 4 9
    [⟨0, 0, 0⟩, ⟨1, 1, 3000⟩] 28 = some (cexSeq, 40) := by
  norm_num [materializeLoop, materializeStep, materializeValue, resampleValue,
    cexRand, cexRandList, cexPosPlan, cexAudPlan, cexSeq, List.getD, List.get?,
    List.count]


/-- The concrete run evaluates to cexOut. -/
theorem cexRun_eq : cexRun = some cexOut := by
  have e1 : (((3:ℕ):Int) * ((3:ℕ):Int) - 1) = 8 := by norm_num
  have e2 : (min (2:ℕ) 11) = 2 := by norm_num
  have e3 : (11 - 2 : ℕ) = 9 := by norm_num
  have e4 : jsRound (((9:ℕ):ℚ) * 0.35) = 3 := by norm_num [jsRound]
  have hini : initialStimuli cexRand 8 7 0 2 0 0 = ([⟨0, 0, 0⟩, ⟨1, 1, 3000⟩], 4) := by
    norm_num [initialStimuli, cexRand, cexRandList]
  unfold cexRun generateEngagingSequenceFull
  simp only [difficultySettings]
  rw [if_neg (by norm_num : ¬(11:ℕ) ≤ 2)]
  simp only [e1, e2, e3, e4, hini, cexEngagement, cexBreaking, cexMaterialize, cexOut]

/-- C2 counterexample: a complete generateEngagingSequence run (easy
    preset: maxConsecutive 1, minGap 2) whose final position plan keeps
    matches at slots 0 and 2 — distance 2 = minGap, violating the gap
    constraint the placement pass enforced; the materialized sequence
    accordingly has position matches at indices 2 and 4. -/
theorem C2_counterexample :
    cexRun = some cexOut ∧
    ¬ gapRespected cexPosPlan (difficultySettings Difficulty.easy).minGap ∧
    shouldPositionMatch cexSeq 2 2 = some true ∧
    shouldPositionMatch cexSeq 4 2 = some true := by
  refine ⟨cexRun_eq, ?_, by decide, by decide⟩
  intro H
  have hmg : (difficultySettings Difficulty.easy).minGap = 2 := rfl
  have h02 := H 0 2 (by norm_num) (by decide) (by decide)
  rw [hmg] at h02
  omega

/-- C2 amended: the gap and consecutive constraints hold on both channel
    patterns as produced by createEngagementPattern (the placement passes);
    addPatternBreaking's relocation and backfill may break them. -/
theorem C2_engagement_pattern_respects_constraints (fexp : ℚ → ℚ) (rand : ℕ → ℚ)
    (length : ℕ) (positionMatches audioMatches : Int)
    (maxConsecutive minGap nLevel c : ℕ)
    (pats : List Bool × List Bool) (c2 : ℕ)
    (h : createEngagementPattern fexp rand length positionMatches audioMatches
      maxConsecutive minGap nLevel c = some (pats, c2)) :
    gapRespected pats.1 minGap ∧ consecRespected pats.1 maxConsecutive ∧
    gapRespected pats.2 minGap ∧ consecRespected pats.2 maxConsecutive := by
  unfold createEngagementPattern at h
  cases hp : placeMatches fexp rand length positionMatches maxConsecutive minGap
      true false none c with
  | none =>
    rw [hp] at h
    exact Option.noConfusion h
  | some pc =>
    obtain ⟨position, c1⟩ := pc
    rw [hp] at h
    cases ha : placeMatches fexp rand length audioMatches maxConsecutive minGap
        true (decide (nLevel < 3)) (some position) c1 with
    | none =>
      simp only [ha] at h
      exact Option.noConfusion h
    | some ac =>
      obtain ⟨audio, c2'⟩ := ac
      simp only [ha, Option.some.injEq, Prod.mk.injEq] at h
      have h1 := placeMatches_inv fexp rand length positionMatches maxConsecutive minGap
        true false none c position c1 hp
      have h2 := placeMatches_inv fexp rand length audioMatches maxConsecutive minGap
        true (decide (nLevel < 3)) (some position) c1 audio c2' ha
      rw [← h.1]
      exact ⟨h1.2.2.1, h1.2.2.2, h2.2.2.1, h2.2.2.2⟩

/-- C2 witness: the amended theorem applied to the concrete placement run. -/
theorem C2_witness :
    createEngagementPattern (fun _ => 1) cexRand 9 3 3 1 2 2 4 =
      some ((cexPosPlan0, cexAudPlan), 26) ∧
    gapRespected cexPosPlan0 2 ∧ consecRespected cexPosPlan0 1 ∧
    gapRespected cexAudPlan 2 ∧ consecRespected cexAudPlan 1 :=
  ⟨cexEngagement, C2_engagement_pattern_respects_constraints (fun _ => 1) cexRand
    9 3 3 1 2 2 4 (cexPosPlan0, cexAudPlan) 26 cexEngagement⟩

/-- A successful resampling never returns a rejected value. -/
theorem resampleValue_spec (rand : ℕ → ℚ) (bound : Int) (bad : Int → Bool) :
    ∀ (fuel c : ℕ) (v : Int) (c' : ℕ),
      resampleValue rand bound bad fuel c = some (v, c') → bad v = false := by
  intro fuel
  induction fuel with
  | zero =>
    intro c v c' h
    exact Option.noConfusion h
  | succ n ih =>
    intro c v c' h
    simp only [resampleValue] at h
    split_ifs at h with hb
    · exact ih (c + 1) v c' h
    · simp only [Option.some.injEq, Prod.mk.injEq] at h
      rw [← h.1]
      cases hx : bad ⌊rand c * (bound : ℚ)⌋
      · rfl
      · exact absurd hx hb

/-- get? as some getD on an in-range index. -/
theorem get?_eq_some_getD (l : List GameSequence) (k : ℕ) (h : k < l.length) :
    l.get? k = some (l.getD k ⟨0, 0, 0⟩) := by
  rw [List.getD_eq_getElem l _ h, List.get?_eq_getElem?, List.getElem?_eq_getElem h]


/-- A successfully materialized channel value equals the n-back value
    exactly when the slot was planned as a match. -/
theorem materializeValue_spec (rand : ℕ → ℚ) (planned : Bool) (nback : Int)
    (used : List Int) (bound : Int) (fuel c : ℕ) (v : Int) (c' : ℕ)
    (h : materializeValue rand planned nback used bound fuel c = some (v, c')) :
    v = nback ↔ planned = true := by
  unfold materializeValue at h
  cases planned with
  | true =>
    rw [if_pos rfl] at h
    simp only [Option.some.injEq, Prod.mk.injEq] at h
    exact ⟨fun _ => rfl, fun _ => h.1.symm⟩
  | false =>
    rw [if_neg Bool.false_ne_true] at h
    have hbad := resampleValue_spec rand bound _ fuel c v c' h
    simp only [Bool.or_eq_false_iff, beq_eq_false_iff_ne] at hbad
    exact ⟨fun hv => absurd hv hbad.1, fun hff => Bool.noConfusion hff⟩

/-- One materialization step produces a stimulus that matches the n-back
    value on each channel exactly when the plan says so. -/
theorem materializeStep_spec (rand : ℕ → ℚ) (posPlan audioPlan : List Bool)
    (nLevel : ℕ) (mp ma now : Int) (fuel : ℕ)
    (seq : List GameSequence) (c : ℕ) (st : GameSequence) (c' : ℕ)
    (hn : 1 ≤ nLevel) (hlen : nLevel ≤ seq.length)
    (h : materializeStep rand posPlan audioPlan nLevel mp ma now fuel seq c = some (st, c')) :
    (st.position = (seq.getD (seq.length - nLevel) ⟨0, 0, 0⟩).position ↔
      posPlan.getD (seq.length - nLevel) false = true) ∧
    (st.audio = (seq.getD (seq.length - nLevel) ⟨0, 0, 0⟩).audio ↔
      audioPlan.getD (seq.length - nLevel) false = true) := by
  have hk : seq.length - nLevel < seq.length := by omega
  have hget := get?_eq_some_getD seq (seq.length - nLevel) hk
  simp only [materializeStep, hget] at h
  cases hp : materializeValue rand (posPlan.getD (seq.length - nLevel) false)
      (seq.getD (seq.length - nLevel) ⟨0, 0, 0⟩).position
      ((seq.drop (seq.length - nLevel * 2)).map (·.position)) (mp + 1) fuel c with
  | none =>
    simp only [hp] at h
    exact Option.noConfusion h
  | some pc =>
    obtain ⟨pv, c1⟩ := pc
    simp only [hp] at h
    cases ha : materializeValue rand (audioPlan.getD (seq.length - nLevel) false)
        (seq.getD (seq.length - nLevel) ⟨0, 0, 0⟩).audio
        ((seq.drop (seq.length - nLevel * 2)).map (·.audio)) (ma + 1) fuel c1 with
    | none =>
      simp only [ha] at h
      exact Option.noConfusion h
    | some ac =>
      obtain ⟨av, c2⟩ := ac
      simp only [ha, Option.some.injEq, Prod.mk.injEq] at h
      rw [← h.1]
      exact ⟨materializeValue_spec rand _ _ _ _ fuel c pv c1 hp,
        materializeValue_spec rand _ _ _ _ fuel c1 av c2 ha⟩

/-- The materialization loop appends one stimulus per remaining index and
    keeps every eligible index matching the plan. -/
theorem materializeLoop_spec (rand : ℕ → ℚ) (pp ap : List Bool) (nLevel : ℕ)
    (mp ma now : Int) (fuel : ℕ) (hn : 1 ≤ nLevel) :
    ∀ (rem : ℕ) (seq : List GameSequence) (c : ℕ) (seq' : List GameSequence) (c' : ℕ),
      materializeLoop rand pp ap nLevel mp ma now fuel rem seq c = some (seq', c') →
      nLevel ≤ seq.length →
      (∀ i, nLevel ≤ i → i < seq.length → matchesPlanAt pp ap nLevel seq i) →
      seq'.length = seq.length + rem ∧
      ∀ i, nLevel ≤ i → i < seq'.length → matchesPlanAt pp ap nLevel seq' i := by
  intro rem
  induction rem with
  | zero =>
    intro seq c seq' c' h hlen hprev
    simp only [materializeLoop, Option.some.injEq, Prod.mk.injEq] at h
    rw [← h.1]
    exact ⟨by omega, hprev⟩
  | succ n ih =>
    intro seq c seq' c' h hlen hprev
    simp only [materializeLoop] at h
    cases hst : materializeStep rand pp ap nLevel mp ma now fuel seq c with
    | none =>
      simp only [hst] at h
      exact Option.noConfusion h
    | some stc =>
      obtain ⟨st, c2⟩ := stc
      simp only [hst] at h
      have hstep := materializeStep_spec rand pp ap nLevel mp ma now fuel seq c st c2
        hn hlen hst
      have hmono : ∀ i, nLevel ≤ i → i < (seq ++ [st]).length →
          matchesPlanAt pp ap nLevel (seq ++ [st]) i := by
        intro i h1 h2
        rw [List.length_append, List.length_singleton] at h2
        by_cases hcase : i < seq.length
        · have e1 : (seq ++ [st]).getD i ⟨0, 0, 0⟩ = seq.getD i ⟨0, 0, 0⟩ :=
            List.getD_append _ _ _ _ hcase
          have e2 : (seq ++ [st]).getD (i - nLevel) ⟨0, 0, 0⟩ =
              seq.getD (i - nLevel) ⟨0, 0, 0⟩ :=
            List.getD_append _ _ _ _ (by omega)
          unfold matchesPlanAt
          rw [e1, e2]
          exact hprev i h1 hcase
        · have hieq : i = seq.length := by omega
          subst hieq
          have e1 : (seq ++ [st]).getD seq.length ⟨0, 0, 0⟩ = st := by
            rw [List.getD_append_right _ _ _ _ (le_refl _)]
            simp
          have e2 : (seq ++ [st]).getD (seq.length - nLevel) ⟨0, 0, 0⟩ =
              seq.getD (seq.length - nLevel) ⟨0, 0, 0⟩ :=
            List.getD_append _ _ _ _ (by omega)
          unfold matchesPlanAt
          rw [e1, e2]
          exact hstep
      have hrec := ih (seq ++ [st]) c2 seq' c' h
        (by rw [List.length_append, List.length_singleton]; omega) hmono
      refine ⟨?_, hrec.2⟩
      rw [hrec.1, List.length_append, List.length_singleton]
      omega

/-- The initial loop emits exactly the requested number of stimuli. -/
theorem initialStimuli_length (rand : ℕ → ℚ) (mp ma now : Int) :
    ∀ (count c i : ℕ), (initialStimuli rand mp ma now count c i).1.length = count := by
  intro count
  induction count with
  | zero =>
    intro c i
    rfl
  | succ n ih =>
    intro c i
    simp only [initialStimuli, List.length_cons]
    rw [ih (c + 2) (i + 1)]


/-- C1: in every successful generateEngagingSequence run the materialized
    sequence matches its n-back value at an eligible index exactly when
    the final plan flags that slot, on both channels: planned-true slots
    copy the n-back value and planned-false slots are resampled until they
    differ, so there are no accidental and no missed matches. -/
theorem C1_materialized_matches_plan (fexp : ℚ → ℚ) (rand : ℕ → ℚ) (now : Int)
    (fuel : ℕ) (length gridSize nLevel : ℕ) (difficulty : Difficulty) (c : ℕ)
    (plan : List Bool × List Bool) (seq : List GameSequence) (c' : ℕ)
    (hn : 1 ≤ nLevel)
    (h : generateEngagingSequenceFull fexp rand now fuel length gridSize nLevel
      difficulty c = some (plan, seq, c'))
    (i : ℕ) (hi1 : nLevel ≤ i) (hi2 : i < length) :
    seq.length = length ∧ matchesPlanAt plan.1 plan.2 nLevel seq i := by
  simp only [generateEngagingSequenceFull] at h
  by_cases hl : length ≤ nLevel
  · rw [if_pos hl] at h
    exact Option.noConfusion h
  · rw [if_neg hl] at h
    cases hcep : createEngagementPattern fexp rand (length - nLevel)
        (jsRound (((length - nLevel : ℕ) : ℚ) * (difficultySettings difficulty).position))
        (jsRound (((length - nLevel : ℕ) : ℚ) * (difficultySettings difficulty).audio))
        (difficultySettings difficulty).maxConsecutive (difficultySettings difficulty).minGap
        nLevel (initialStimuli rand ((gridSize : Int) * (gridSize : Int) - 1) 7 now
          (min nLevel length) c 0).2 with
    | none =>
      simp only [hcep] at h
      exact Option.noConfusion h
    | some mc =>
      obtain ⟨matchPattern, c1⟩ := mc
      simp only [hcep] at h
      cases hapb : addPatternBreaking rand matchPattern.1 matchPattern.2
          (jsRound (((length - nLevel : ℕ) : ℚ) * (difficultySettings difficulty).position))
          (jsRound (((length - nLevel : ℕ) : ℚ) * (difficultySettings difficulty).audio))
          nLevel c1 with
      | none =>
        simp only [hapb] at h
        exact Option.noConfusion h
      | some fc =>
        obtain ⟨finalPattern, c2⟩ := fc
        simp only [hapb] at h
        cases hml : materializeLoop rand finalPattern.1 finalPattern.2 nLevel
            ((gridSize : Int) * (gridSize : Int) - 1) 7 now fuel (length - nLevel)
            (initialStimuli rand ((gridSize : Int) * (gridSize : Int) - 1) 7 now
              (min nLevel length) c 0).1 c2 with
        | none =>
          simp only [hml] at h
          exact Option.noConfusion h
        | some sc =>
          obtain ⟨seq2, c3⟩ := sc
          simp only [hml, Option.some.injEq, Prod.mk.injEq] at h
          have hlen0 : (initialStimuli rand ((gridSize : Int) * (gridSize : Int) - 1) 7
              now (min nLevel length) c 0).1.length = nLevel := by
            rw [initialStimuli_length]
            exact min_eq_left (le_of_not_le hl)
          have hspec := materializeLoop_spec rand finalPattern.1 finalPattern.2 nLevel
            ((gridSize : Int) * (gridSize : Int) - 1) 7 now fuel hn (length - nLevel)
            _ c2 seq2 c3 hml (by rw [hlen0]) ?_
          · obtain ⟨hfl, hfp⟩ := hspec
            rw [hlen0] at hfl
            have hseqlen : seq2.length = length := by omega
            obtain ⟨hplan, hseq, -⟩ := h
            rw [← hplan, ← hseq]
            exact ⟨hseqlen, hfp i hi1 (by omega)⟩
          · intro j hj1 hj2
            rw [hlen0] at hj2
            omega

/-- Witness for C1: the concrete run with oracle cexRand, length 11, n-level 2,
    easy difficulty succeeds, and at index 2 the materialized matches agree with
    the final plan on both channels. -/
theorem C1_witness :
    (1 : ℕ) ≤ 2 ∧
    generateEngagingSequenceFull (fun _ => 1) cexRand 0 4 11 3 2 Difficulty.easy 0 =
      some ((cexPosPlan, cexAudPlan), cexSeq, 40) ∧
    (2 : ℕ) ≤ 2 ∧ (2 : ℕ) < 11 ∧
    (cexSeq.length = 11 ∧ matchesPlanAt cexPosPlan cexAudPlan 2 cexSeq 2) := by
  have h : generateEngagingSequenceFull (fun _ => 1) cexRand 0 4 11 3 2 Difficulty.easy 0 =
      some ((cexPosPlan, cexAudPlan), cexSeq, 40) := cexRun_eq
  exact ⟨by norm_num, h, by norm_num, by norm_num,
    C1_materialized_matches_plan (fun _ => 1) cexRand 0 4 11 3 2 Difficulty.easy 0
      (cexPosPlan, cexAudPlan) cexSeq 40 (by norm_num) h 2 (by norm_num) (by norm_num)⟩

/-- planNextSegment only rewrites the forward plan: every other field of
    the generator is kept, and every planned index is at or past the
    cursor (startIndex = generatedCount). -/
theorem planNextSegment_spec (g : AdaptiveSequenceGenerator) (rand : ℕ → ℚ)
    (c : ℕ) (g' : AdaptiveSequenceGenerator) (c' : ℕ)
    (h : g.planNextSegment rand c = some (g', c')) :
    g'.baseSequence = g.baseSequence ∧
    g'.maxPosition = g.maxPosition ∧
    g'.maxAudio = g.maxAudio ∧
    g'.state.generatedCount = g.state.generatedCount ∧
    g'.state.recentPositions = g.state.recentPositions ∧
    g'.state.recentAudios = g.state.recentAudios ∧
    g'.state.currentConfig = g.state.currentConfig ∧
    (∀ i ∈ g'.state.nextSegmentPositionMatches, g.state.generatedCount ≤ i) ∧
    (∀ i ∈ g'.state.nextSegmentAudioMatches, g.state.generatedCount ≤ i) := by
  simp only [AdaptiveSequenceGenerator.planNextSegment] at h
  split at h
  · exact Option.noConfusion h
  · rename_i positionIndices c1 hpc
    split at h
    · exact Option.noConfusion h
    · rename_i audioIndices c2 hac
      simp only [Option.some.injEq, Prod.mk.injEq] at h
      obtain ⟨hg, hc⟩ := h
      subst hg
      refine ⟨rfl, rfl, rfl, rfl, rfl, rfl, rfl, ?_, ?_⟩
      · intro i hi
        simp only [List.mem_map] at hi
        obtain ⟨idx, -, rfl⟩ := hi
        exact Nat.le_add_right _ _
      · intro i hi
        simp only [List.mem_map] at hi
        obtain ⟨idx, -, rfl⟩ := hi
        exact Nat.le_add_right _ _

/-- The match-rate multiplier updateConfig derives from one snapshot. -/
theorem adaptiveAdjustment_fst (a m : ℚ) :
    (adaptiveAdjustment a m).1 =
      if 85 < a ∧ m < 0.1 then 1.2 else if a < 60 ∨ 0.3 < m then 0.8 else 1 := by
  unfold adaptiveAdjustment
  split_ifs <;> norm_num

/-- The complexity adjustment updateConfig derives from one snapshot. -/
theorem adaptiveAdjustment_snd (a m : ℚ) :
    (adaptiveAdjustment a m).2 =
      if 85 < a ∧ m < 0.1 then 0.05 else if a < 60 ∨ 0.3 < m then -0.05 else 0 := by
  unfold adaptiveAdjustment
  split_ifs <;> norm_num

/-- C8: updateConfig applies the single-snapshot rule — both target match
    rates multiplied by 1.2 and the overlap bonus raised by 0.05 when
    accuracy > 85 and missed rate < 0.1; rates multiplied by 0.8 and the
    bonus lowered by 0.05 when accuracy < 60 or missed rate > 0.3;
    otherwise both left unchanged — with the rates clamped to [0.15, 0.45]
    and the bonus to [0, 0.2]; and it replans only the forward segment:
    the stored sequence, the cursor, the recent-value buffers and the
    structural config fields are untouched and every newly planned index
    is at or past the cursor. -/
theorem C8_updateConfig_rule_and_forward_replan
    (g : AdaptiveSequenceGenerator) (s : PerformanceSnapshot) (rand : ℕ → ℚ)
    (c : ℕ) (g' : AdaptiveSequenceGenerator) (c' : ℕ)
    (h : g.updateConfig s rand c = some (g', c')) :
    g'.state.currentConfig.targetPositionMatchRate =
      max 0.15 (min 0.45 (g.state.currentConfig.targetPositionMatchRate *
        (if 85 < s.accuracy ∧ snapshotMissedRate s < 0.1 then 1.2
         else if s.accuracy < 60 ∨ 0.3 < snapshotMissedRate s then 0.8 else 1))) ∧
    g'.state.currentConfig.targetAudioMatchRate =
      max 0.15 (min 0.45 (g.state.currentConfig.targetAudioMatchRate *
        (if 85 < s.accuracy ∧ snapshotMissedRate s < 0.1 then 1.2
         else if s.accuracy < 60 ∨ 0.3 < snapshotMissedRate s then 0.8 else 1))) ∧
    g'.state.currentConfig.overlapBonus =
      max 0 (min 0.2 (g.state.currentConfig.overlapBonus +
        (if 85 < s.accuracy ∧ snapshotMissedRate s < 0.1 then 0.05
         else if s.accuracy < 60 ∨ 0.3 < snapshotMissedRate s then -0.05 else 0))) ∧
    g'.state.currentConfig.nLevel = g.state.currentConfig.nLevel ∧
    g'.state.currentConfig.gridSize = g.state.currentConfig.gridSize ∧
    g'.state.currentConfig.segmentSize = g.state.currentConfig.segmentSize ∧
    g'.state.currentConfig.maxConsecutive = g.state.currentConfig.maxConsecutive ∧
    g'.state.currentConfig.minGap = g.state.currentConfig.minGap ∧
    g'.baseSequence = g.baseSequence ∧
    g'.state.generatedCount = g.state.generatedCount ∧
    g'.state.recentPositions = g.state.recentPositions ∧
    g'.state.recentAudios = g.state.recentAudios ∧
    (∀ i ∈ g'.state.nextSegmentPositionMatches, g.state.generatedCount ≤ i) ∧
    (∀ i ∈ g'.state.nextSegmentAudioMatches, g.state.generatedCount ≤ i) := by
  simp only [AdaptiveSequenceGenerator.updateConfig] at h
  obtain ⟨hbase, hmp, hma, hgen, hrp, hra, hcfg, hp, ha⟩ :=
    planNextSegment_spec _ _ _ _ _ h
  refine ⟨?_, ?_, ?_, ?_, ?_, ?_, ?_, ?_, hbase, hgen, hrp, hra, hp, ha⟩ <;>
    rw [hcfg] <;>
    simp only [adaptiveAdjustment_fst, adaptiveAdjustment_snd]

/-- Witness for C8: the excellent-performance update of the concrete
    generator c8gen scales both rates from 0.3 to 0.36, raises the bonus
    from 0.1 to 0.15, keeps the two stored stimuli and the cursor, and
    plans the forward segment at index 3, past the cursor 2. -/
theorem C8_witness :
    c8gen.updateConfig c8snap (fun _ => 0) 0 = some (c8gen', 2) ∧
    c8gen'.state.currentConfig.targetPositionMatchRate =
      max 0.15 (min 0.45 (c8gen.state.currentConfig.targetPositionMatchRate *
        (if 85 < c8snap.accuracy ∧ snapshotMissedRate c8snap < 0.1 then 1.2
         else if c8snap.accuracy < 60 ∨ 0.3 < snapshotMissedRate c8snap then 0.8
         else 1))) ∧
    c8gen'.state.currentConfig.overlapBonus =
      max 0 (min 0.2 (c8gen.state.currentConfig.overlapBonus +
        (if 85 < c8snap.accuracy ∧ snapshotMissedRate c8snap < 0.1 then 0.05
         else if c8snap.accuracy < 60 ∨ 0.3 < snapshotMissedRate c8snap then -0.05
         else 0))) ∧
    c8gen'.baseSequence = c8gen.baseSequence ∧
    c8gen'.state.generatedCount = c8gen.state.generatedCount ∧
    c8gen.state.generatedCount ≤ 3 := by
  have h : c8gen.updateConfig c8snap (fun _ => 0) 0 = some (c8gen', 2) := by
    norm_num [AdaptiveSequenceGenerator.updateConfig,
      AdaptiveSequenceGenerator.planNextSegment,
      AdaptiveSequenceGenerator.selectMatchIndices, shuffleArray, fisherYatesLoop,
      swapSlots, snapshotMissedRate, adaptiveAdjustment, jsRound, c8gen, c8cfg,
      c8snap, c8gen', c8cfg', List.range, List.range.loop, List.get?,
      List.getElem?_cons_zero, List.getElem?_cons_succ, List.getElem?_nil,
      List.set, List.take]
  obtain ⟨h1, -, h3, -, -, -, -, -, h9, h10, -, -, h13, -⟩ :=
    C8_updateConfig_rule_and_forward_replan c8gen c8snap (fun _ => 0) 0 c8gen' 2 h
  refine ⟨h, h1, h3, h9, h10, h13 3 ?_⟩
  norm_num [c8gen']

/-- pushStimulus preserves the cursor invariant: both the cursor and the
    stored sequence grow by one. -/
theorem pushStimulus_cursorInv (g : AdaptiveSequenceGenerator) (st : GameSequence)
    (h : g.cursorInv) : (g.pushStimulus st).cursorInv := by
  simp only [AdaptiveSequenceGenerator.cursorInv,
    AdaptiveSequenceGenerator.pushStimulus, List.length_append,
    List.length_cons, List.length_nil] at h ⊢
  omega

/-- The seeding loop of generateInitialStimuli preserves the cursor
    invariant (each iteration is one pushStimulus). -/
theorem initLoop_cursorInv (rand : ℕ → ℚ) (now : Int) (count i : ℕ)
    (g : AdaptiveSequenceGenerator) (c : ℕ) (h : g.cursorInv) :
    (AdaptiveSequenceGenerator.initLoop rand now count i g c).1.cursorInv := by
  induction count generalizing i g c with
  | zero => exact h
  | succ n ih => exact ih (i + 1) _ (c + 2) (pushStimulus_cursorInv g _ h)

/-- planNextSegment preserves the cursor invariant (it moves neither the
    cursor nor the stored sequence). -/
theorem planNextSegment_cursorInv (g : AdaptiveSequenceGenerator) (rand : ℕ → ℚ)
    (c : ℕ) (g' : AdaptiveSequenceGenerator) (c' : ℕ)
    (h : g.planNextSegment rand c = some (g', c')) (hg : g.cursorInv) :
    g'.cursorInv := by
  obtain ⟨hbase, -, -, hgen, -⟩ := planNextSegment_spec g rand c g' c' h
  simp only [AdaptiveSequenceGenerator.cursorInv] at hg ⊢
  rw [hgen, hbase]
  exact hg

/-- C10: the generator keeps generatedCount equal to baseSequence.length.
    The invariant holds after construction and after reset, and every
    successful getNextStimulus call finds the cursor at the end of the
    stored sequence — so the early-return branch that would re-serve an
    already-stored stimulus without advancing the cursor cannot fire —
    appends exactly the returned stimulus, advances the cursor by one and
    re-establishes the invariant.  peekNextStimulus reads but never writes
    the generator, which the embedding forces by its type: it returns only
    the peeked stimulus and the advanced draw counter, no generator. -/
theorem C10_cursor_invariant :
    (∀ (config : AdaptiveConfig) (rand : ℕ → ℚ) (now : Int) (c : ℕ)
       (out : AdaptiveSequenceGenerator × ℕ),
       AdaptiveSequenceGenerator.create config rand now c = some out →
       out.1.cursorInv) ∧
    (∀ (g : AdaptiveSequenceGenerator) (rand : ℕ → ℚ) (now : Int) (fuel c : ℕ)
       (st : GameSequence) (g' : AdaptiveSequenceGenerator) (c' : ℕ),
       g.cursorInv →
       g.getNextStimulus rand now fuel c = some (st, g', c') →
       ¬ g.state.generatedCount < g.baseSequence.length ∧
       g'.baseSequence = g.baseSequence ++ [st] ∧
       g'.state.generatedCount = g.state.generatedCount + 1 ∧
       g'.cursorInv) ∧
    (∀ (g : AdaptiveSequenceGenerator) (config : AdaptiveConfig) (rand : ℕ → ℚ)
       (now : Int) (c : ℕ) (out : AdaptiveSequenceGenerator × ℕ),
       g.reset config rand now c = some out → out.1.cursorInv) := by
  refine ⟨?_, ?_, ?_⟩
  · intro config rand now c out h
    obtain ⟨g', c'⟩ := out
    simp only [AdaptiveSequenceGenerator.create,
      AdaptiveSequenceGenerator.generateInitialStimuli] at h
    exact planNextSegment_cursorInv _ rand _ g' c' h
      (initLoop_cursorInv rand now _ 0 _ c rfl)
  · intro g rand now fuel c st g' c' hinv h
    have hnotlt : ¬ g.state.generatedCount < g.baseSequence.length := by
      rw [AdaptiveSequenceGenerator.cursorInv] at hinv
      omega
    refine ⟨hnotlt, ?_⟩
    simp only [AdaptiveSequenceGenerator.getNextStimulus] at h
    rw [if_neg hnotlt] at h
    split at h
    · exact Option.noConfusion h
    · rename_i position c1 hpc
      split at h
      · exact Option.noConfusion h
      · rename_i audio c2 hac
        split at h
        · split at h
          · exact Option.noConfusion h
          · rename_i g2 c3 hplan
            simp only [Option.some.injEq, Prod.mk.injEq] at h
            obtain ⟨hst, hg2, -⟩ := h
            subst hst
            subst hg2
            obtain ⟨hbase, -, -, hgen, -⟩ := planNextSegment_spec _ rand _ _ _ hplan
            exact ⟨hbase, hgen,
              planNextSegment_cursorInv _ rand _ _ _ hplan
                (pushStimulus_cursorInv g _ hinv)⟩
        · simp only [Option.some.injEq, Prod.mk.injEq] at h
          obtain ⟨hst, hg2, -⟩ := h
          subst hst
          subst hg2
          exact ⟨rfl, rfl, pushStimulus_cursorInv g _ hinv⟩
  · intro g config rand now c out h
    obtain ⟨g', c'⟩ := out
    simp only [AdaptiveSequenceGenerator.reset,
      AdaptiveSequenceGenerator.generateInitialStimuli] at h
    exact planNextSegment_cursorInv _ rand _ g' c' h
      (initLoop_cursorInv rand now _ 0 _ c rfl)

/-- Witness for C10: the concrete 1-back generator c10gen is created with
    its cursor at the end of the stored sequence, one getNextStimulus call
    appends exactly the returned stimulus (1, 2) and advances the cursor
    from 1 to 2, and reset restores the invariant. -/
theorem C10_witness :
    AdaptiveSequenceGenerator.create c10cfg c10rand 0 0 = some (c10gen, 4) ∧
    c10gen.cursorInv ∧
    c10gen.getNextStimulus c10rand 0 4 4 = some (⟨1, 2, 3000⟩, c10gen2, 6) ∧
    (¬ c10gen.state.generatedCount < c10gen.baseSequence.length ∧
     c10gen2.baseSequence = c10gen.baseSequence ++ [⟨1, 2, 3000⟩] ∧
     c10gen2.state.generatedCount = c10gen.state.generatedCount + 1 ∧
     c10gen2.cursorInv) ∧
    c10gen2.reset c10cfg c10rand 0 0 = some (c10gen, 4) := by
  have hcreate : AdaptiveSequenceGenerator.create c10cfg c10rand 0 0 =
      some (c10gen, 4) := by
    norm_num [AdaptiveSequenceGenerator.create,
      AdaptiveSequenceGenerator.generateInitialStimuli,
      AdaptiveSequenceGenerator.initLoop, AdaptiveSequenceGenerator.pushStimulus,
      AdaptiveSequenceGenerator.planNextSegment,
      AdaptiveSequenceGenerator.selectMatchIndices, shuffleArray, fisherYatesLoop,
      swapSlots, jsRound, c10cfg, c10rand, c10gen, List.range, List.range.loop,
      List.get?, List.getElem?_cons_zero, List.getElem?_cons_succ,
      List.getElem?_nil, List.set, List.take]
  have hnext : c10gen.getNextStimulus c10rand 0 4 4 =
      some (⟨1, 2, 3000⟩, c10gen2, 6) := by
    have hct : List.contains [2] 1 = false := by rfl
    norm_num [AdaptiveSequenceGenerator.getNextStimulus,
      AdaptiveSequenceGenerator.pushStimulus, resampleValue, c10gen, c10gen2,
      c10cfg, c10rand, List.get?, List.getElem?_cons_zero,
      List.getElem?_cons_succ, List.getElem?_nil, hct, Int.tmod]
  have hreset : c10gen2.reset c10cfg c10rand 0 0 = some (c10gen, 4) := by
    norm_num [AdaptiveSequenceGenerator.reset,
      AdaptiveSequenceGenerator.generateInitialStimuli,
      AdaptiveSequenceGenerator.initLoop, AdaptiveSequenceGenerator.pushStimulus,
      AdaptiveSequenceGenerator.planNextSegment,
      AdaptiveSequenceGenerator.selectMatchIndices, shuffleArray, fisherYatesLoop,
      swapSlots, jsRound, c10cfg, c10rand, c10gen, c10gen2, List.range,
      List.range.loop, List.get?, List.getElem?_cons_zero,
      List.getElem?_cons_succ, List.getElem?_nil, List.set, List.take]
  refine ⟨hcreate,
    C10_cursor_invariant.1 c10cfg c10rand 0 0 (c10gen, 4) hcreate, hnext,
    C10_cursor_invariant.2.1 c10gen c10rand 0 4 4 ⟨1, 2, 3000⟩ c10gen2 6
      (C10_cursor_invariant.1 c10cfg c10rand 0 0 (c10gen, 4) hcreate) hnext,
    hreset⟩
